import Mathlib

/-!
Shallow embedding of the farpy front end (lexer, parser, diagnostics) from
`src/src/lexer/lexer.cpp`, `src/src/lexer/TokenType.hpp`,
`src/src/parser/parser.cpp`, `src/src/parser/ast/ast.hpp`,
`src/src/error/error.cpp` and `src/src/utils/colorize.hpp`.

Loops in the C++ are modelled by fuel-indexed structural recursion; a
distinguished `fuelOut` outcome marks fuel exhaustion, and sufficiency
theorems show the fuel bound used by the top-level wrappers is never hit,
which is the termination argument for the corresponding C++ loops.
Fatal conditions (`exit`, thrown exceptions, out-of-bounds vector reads)
are modelled as `Except` errors.
-/

namespace Farpy

/-- The token kinds of `TokenType.hpp`.  `NEW` and `MUT` are referenced by
`parser.cpp` (`parse_new_decl`) although they are absent from the
`TokenType.hpp` enumeration; they are included so the parser can be embedded. -/
inductive TokenType where
  | IDENTIFIER
  | NUMBER
  | STRING
  | PLUS
  | MINUS
  | STAR
  | SLASH
  | PERCENT
  | EQUAL
  | EQUAL_EQUAL
  | BANG_EQUAL
  | NOT_EQUAL
  | LESS
  | LESS_EQUAL
  | GREATER
  | GREATER_EQUAL
  | AND
  | OR
  | NOT
  | ASSIGN
  | PLUS_ASSIGN
  | MINUS_ASSIGN
  | STAR_ASSIGN
  | SLASH_ASSIGN
  | PERCENT_ASSIGN
  | INCREMENT
  | DECREMENT
  | POWERING
  | BINARY
  | COMMA
  | SEMICOLON
  | COLON
  | DOT
  | LEFT_PAREN
  | RIGHT_PAREN
  | LEFT_BRACE
  | RIGHT_BRACE
  | LEFT_BRACKET
  | RIGHT_BRACKET
  | BANG
  | AMPERSAND
  | PIPE
  | CARET
  | TILDE
  | QUESTION
  | IF
  | ELSE
  | WHILE
  | FOR
  | DO
  | BREAK
  | CONTINUE
  | RETURN
  | TRUE
  | FALSE
  | FN
  | AS
  | IMPORT
  | FOREACH
  | END_OF_FILE
  | NEW
  | MUT
  deriving DecidableEq, Repr

/-- The struct `Loc` of `TokenType.hpp`: `int` fields, so columns may be
negative. -/
structure Loc where
  line : Int
  start_column : Int
  end_column : Int
  deriving DecidableEq, Repr

/-- The struct `Token` of `TokenType.hpp`. -/
structure Token where
  type : TokenType
  lexeme : String
  loc : Loc
  deriving DecidableEq, Repr

/-- Mutable scanning state of class `Lexer` (`lexer.hpp`):
`current_offset`, `current_line` (starts at 1), `current_column`
(starts at 0, reset on newline). -/
structure LexSt where
  offset : Nat
  line : Nat
  col : Nat
  deriving DecidableEq, Repr

/-- The NUL character, which `Lexer::peek` returns past the end of input. -/
def nulChar : Char := Char.ofNat 0

/-- Embeds `Lexer::peek`: the byte at the current offset, or NUL past the end. -/
def peekCh (src : List Char) (st : LexSt) : Char :=
  src.getD st.offset nulChar

/-- the C locale `isspace` on ASCII input. -/
def isSpaceC (c : Char) : Bool :=
  c = ' ' || c = '\t' || c = '\n' || c = '\x0b' || c = '\x0c' || c = '\x0d'

/-- Embeds `Lexer::advance`: consume one character; a newline bumps the line and
resets the column, anything else bumps the column. -/
def lexAdvance (src : List Char) (st : LexSt) : Char × LexSt :=
  if src.getD st.offset nulChar = '\n' then
    (src.getD st.offset nulChar, ⟨st.offset + 1, st.line + 1, 0⟩)
  else (src.getD st.offset nulChar, ⟨st.offset + 1, st.line, st.col + 1⟩)

/-- Embeds `Lexer::create_loc`: `{current_line, current_column - lexeme.length, current_column}`,
evaluated at the state reached after the lexeme was consumed. -/
def create_loc (st : LexSt) (lexeme : String) : Loc :=
  ⟨(st.line : Int), (st.col : Int) - (lexeme.length : Int), (st.col : Int)⟩

/-- Embeds `Lexer::create_token`. -/
def create_token (st : LexSt) (type : TokenType) (lexeme : String) : Token :=
  ⟨type, lexeme, create_loc st lexeme⟩

/-- Fatal outcomes of `Lexer::tokenize`: the process-aborting unknown-character
and unterminated-string paths, plus the fuel artifact of the embedding. -/
inductive LexErr where
  | fuelOut
  | unknownChar (loc : Loc) (lexeme : String)
  | unterminatedString (line : Nat)
  deriving DecidableEq, Repr

/-- Common skeleton of the three scanning loops of the lexer
(`lexing_number`, `lexing_string`, `lexing_identifier`): consume characters
while the loop condition holds, collecting them into the lexeme. -/
def scanWhile (cond : List Char → LexSt → Bool) :
    Nat → List Char → LexSt → Except LexErr (List Char × LexSt)
  | 0, src, st => if cond src st then .error .fuelOut else .ok ([], st)
  | f + 1, src, st =>
    if cond src st then
      match scanWhile cond f src (lexAdvance src st).2 with
      | .ok (cs, st2) => .ok ((lexAdvance src st).1 :: cs, st2)
      | .error e => .error e
    else .ok ([], st)

/-- Loop condition of `Lexer::lexing_number`:
`current_offset < source.size() && isdigit(peek())`. -/
def digitCond (src : List Char) (st : LexSt) : Bool :=
  decide (st.offset < src.length) && (peekCh src st).isDigit

/-- Loop condition of `Lexer::lexing_string`:
`current_offset < source.size() && peek() != calldquote`. -/
def strCond (src : List Char) (st : LexSt) : Bool :=
  decide (st.offset < src.length) && !(peekCh src st == '"')

/-- Loop condition of `Lexer::lexing_identifier`:
`current_offset < source.size() && (isalnum(peek()) || peek() == underscore)`. -/
def identCond (src : List Char) (st : LexSt) : Bool :=
  decide (st.offset < src.length) && ((peekCh src st).isAlphanum || peekCh src st == '_')

/-- Digit-run loop of `Lexer::lexing_number`. -/
def takeDigits : Nat → List Char → LexSt → Except LexErr (List Char × LexSt) :=
  scanWhile digitCond

/-- Body loop of `Lexer::lexing_string`: consume verbatim until a closing
quote or the end of input. -/
def takeStrChars : Nat → List Char → LexSt → Except LexErr (List Char × LexSt) :=
  scanWhile strCond

/-- Identifier-run loop of `Lexer::lexing_identifier`. -/
def takeIdentChars : Nat → List Char → LexSt → Except LexErr (List Char × LexSt) :=
  scanWhile identCond

/-- Embeds `Lexer::lexing_number`: the token is created at the state after the run. -/
def lexing_number (fuel : Nat) (src : List Char) (st : LexSt) :
    Except LexErr (Token × LexSt) :=
  match takeDigits fuel src st with
  | .ok (cs, st2) => .ok (create_token st2 .NUMBER (String.mk cs), st2)
  | .error e => .error e

/-- Embeds `Lexer::lexing_string`: skip the opening quote, consume the body, and on
end of input report `current_line` as it stands there; otherwise skip the
closing quote and create the token. -/
def lexing_string (fuel : Nat) (src : List Char) (st : LexSt) :
    Except LexErr (Token × LexSt) :=
  match takeStrChars fuel src (lexAdvance src st).2 with
  | .error e => .error e
  | .ok (cs, st2) =>
    if src.length ≤ st2.offset then .error (.unterminatedString st2.line)
    else
      .ok (create_token (lexAdvance src st2).2 .STRING (String.mk cs),
           (lexAdvance src st2).2)

/-- The fixed keyword table of `Lexer::lexing_identifier`. -/
def keywordType (s : String) : Option TokenType :=
  if s = "if" then some .IF
  else if s = "else" then some .ELSE
  else if s = "while" then some .WHILE
  else if s = "for" then some .FOR
  else if s = "foreach" then some .FOREACH
  else if s = "do" then some .DO
  else if s = "break" then some .BREAK
  else if s = "continue" then some .CONTINUE
  else if s = "return" then some .RETURN
  else if s = "true" then some .TRUE
  else if s = "false" then some .FALSE
  else none

/-- Embeds `Lexer::lexing_identifier`. -/
def lexing_identifier (fuel : Nat) (src : List Char) (st : LexSt) :
    Except LexErr (Token × LexSt) :=
  match takeIdentChars fuel src st with
  | .error e => .error e
  | .ok (cs, st2) =>
    match keywordType (String.mk cs) with
    | some t => .ok (create_token st2 t (String.mk cs), st2)
    | none => .ok (create_token st2 .IDENTIFIER (String.mk cs), st2)

/-- One-character-of-lookahead handling for `=`, `!`, `<`, `>`, `&`, `|` in
`Lexer::tokenize`. -/
def twoCharOp (src : List Char) (st : LexSt) (second : Char)
    (two : TokenType) (twoLex : String) (one : TokenType) (oneLex : String) :
    Token × LexSt :=
  if peekCh src (lexAdvance src st).2 = second then
    (create_token (lexAdvance src (lexAdvance src st).2).2 two twoLex,
     (lexAdvance src (lexAdvance src st).2).2)
  else (create_token (lexAdvance src st).2 one oneLex, (lexAdvance src st).2)

/-- Single-character operator emission `create_token(T, std::string(1, advance()))`. -/
def singleOp (src : List Char) (st : LexSt) (t : TokenType) : Token × LexSt :=
  (create_token (lexAdvance src st).2 t (String.mk [(lexAdvance src st).1]),
   (lexAdvance src st).2)

/-- The result of one single-character operator case of `Lexer::tokenize`. -/
def singleStep (src : List Char) (st : LexSt) (t : TokenType) :
    Except LexErr (List Token × LexSt) :=
  .ok ([(singleOp src st t).1], (singleOp src st t).2)

/-- The result of one two-character-lookahead operator case. -/
def twoStep (src : List Char) (st : LexSt) (second : Char)
    (two : TokenType) (twoLex : String) (one : TokenType) (oneLex : String) :
    Except LexErr (List Token × LexSt) :=
  .ok ([(twoCharOp src st second two twoLex one oneLex).1],
       (twoCharOp src st second two twoLex one oneLex).2)

/-- One iteration of the `while` loop of `Lexer::tokenize`, returning the
tokens emitted by the iteration (zero or one) and the new state. -/
def lexStep (fuel : Nat) (src : List Char) (st : LexSt) :
    Except LexErr (List Token × LexSt) :=
  if isSpaceC (peekCh src st) then .ok ([], (lexAdvance src st).2)
  else if (peekCh src st).isDigit then
    match lexing_number fuel src st with
    | .ok (t, st2) => .ok ([t], st2)
    | .error e => .error e
  else if peekCh src st = '"' then
    match lexing_string fuel src st with
    | .ok (t, st2) => .ok ([t], st2)
    | .error e => .error e
  else if (peekCh src st).isAlpha ∨ peekCh src st = '_' then
    match lexing_identifier fuel src st with
    | .ok (t, st2) => .ok ([t], st2)
    | .error e => .error e
  else if peekCh src st = '=' then twoStep src st '=' .EQUAL_EQUAL "==" .EQUAL "="
  else if peekCh src st = '!' then twoStep src st '=' .BANG_EQUAL "!=" .BANG "!"
  else if peekCh src st = '<' then twoStep src st '=' .LESS_EQUAL "<=" .LESS "<"
  else if peekCh src st = '>' then twoStep src st '=' .GREATER_EQUAL ">=" .GREATER ">"
  else if peekCh src st = '&' then twoStep src st '&' .AND "&&" .AMPERSAND "&"
  else if peekCh src st = '|' then twoStep src st '|' .OR "||" .PIPE "|"
  else if peekCh src st = '+' then singleStep src st .PLUS
  else if peekCh src st = '-' then singleStep src st .MINUS
  else if peekCh src st = '*' then singleStep src st .STAR
  else if peekCh src st = '/' then singleStep src st .SLASH
  else if peekCh src st = '%' then singleStep src st .PERCENT
  else if peekCh src st = '^' then singleStep src st .CARET
  else if peekCh src st = '~' then singleStep src st .TILDE
  else if peekCh src st = '?' then singleStep src st .QUESTION
  else if peekCh src st = ',' then singleStep src st .COMMA
  else if peekCh src st = ';' then singleStep src st .SEMICOLON
  else if peekCh src st = ':' then singleStep src st .COLON
  else if peekCh src st = '.' then singleStep src st .DOT
  else if peekCh src st = '(' then singleStep src st .LEFT_PAREN
  else if peekCh src st = ')' then singleStep src st .RIGHT_PAREN
  else if peekCh src st = '\x7b' then singleStep src st .LEFT_BRACE
  else if peekCh src st = '\x7d' then singleStep src st .RIGHT_BRACE
  else if peekCh src st = '[' then singleStep src st .LEFT_BRACKET
  else if peekCh src st = ']' then singleStep src st .RIGHT_BRACKET
  else
    .error (.unknownChar
      (create_loc (lexAdvance src st).2 (String.mk [(lexAdvance src st).1]))
      (String.mk [(lexAdvance src st).1]))

/-- The `while (current_offset < source.size())` loop of `Lexer::tokenize`,
also returning the final scanning state. -/
def tokenizeAux : Nat → List Char → LexSt → List Token →
    Except LexErr (List Token × LexSt)
  | 0, src, st, acc =>
    if st.offset < src.length then .error .fuelOut else .ok (acc, st)
  | f + 1, src, st, acc =>
    if st.offset < src.length then
      match lexStep f src st with
      | .error e => .error e
      | .ok (ts, st2) => tokenizeAux f src st2 (acc ++ ts)
    else .ok (acc, st)

/-- Embeds `Lexer::tokenize` on a whole source string, starting from offset 0,
line 1, column 0.  The fuel `length + 1` is proved sufficient below. -/
def tokenize (source : String) : Except LexErr (List Token × LexSt) :=
  tokenizeAux (source.data.length + 1) source.data ⟨0, 1, 0⟩ []

/-- The AST node variants of `ast.hpp`.  `NumberNode` stores the
`std::stod` of the lexeme; the lexer only produces all-digit `NUMBER`
lexemes, on which `stod` is exact, so the value is modelled as the natural
number the digits denote.  A `shared_ptr` child that may be null is an
`Option`; `BinaryOpNode::left` and `VarDeclarationNode::value` are only
ever constructed from non-null pointers (the parser checks them), so they
are plain children. -/
inductive Ast where
  | num (value : Nat) (loc : Loc)
  | str (value : String) (loc : Loc)
  | ident (value : String) (loc : Loc)
  | binaryOp (op : String) (left : Ast) (right : Option Ast) (loc : Loc)
  | varDeclaration (identifier : String) (value : Ast) (isMut : Bool) (loc : Loc)
  deriving Repr

/-- The value `std::stod` computes on the integer-only lexemes produced by
`Lexer::lexing_number`. -/
def stodNat (s : String) : Nat :=
  s.data.foldl (fun acc c => acc * 10 + (c.toNat - 48)) 0

/-- Abortive outcomes of a `Parser` run: an out-of-bounds read of the token
vector (undefined behaviour in the C++), the thrown `runtime_error`s of
`nud` and `parse_new_decl` (catchable by `Parser::parse`), the `exit` calls
of `led` and `consume` (not catchable), and the fuel artifact. -/
inductive PErr where
  | oobRead (idx : Int)
  | nudInvalid (lexeme : String)
  | ledInvalid (lexeme : String)
  | consumeFail (message : String) (value : String)
  | missingInitializer
  | fuelOut
  deriving DecidableEq, Repr

/-- Whether an outcome is a thrown `std::exception` that the `try`/`catch`
of `Parser::parse` catches. -/
def isCatchable : PErr → Bool
  | .nudInvalid _ => true
  | .missingInitializer => true
  | _ => false

/-- Embeds `Parser::peek`: reads `tokens[pos]` unchecked; an index at or past the
size is modelled as the abortive `oobRead`. -/
def peekP (tokens : List Token) (pos : Nat) : Except PErr Token :=
  match tokens.get? pos with
  | some t => .ok t
  | none => .error (.oobRead (pos : Int))

/-- Embeds `Parser::advance`: `return tokens[pos++]`, unchecked. -/
def advanceP (tokens : List Token) (pos : Nat) : Except PErr (Token × Nat) :=
  match peekP tokens pos with
  | .ok t => .ok (t, pos + 1)
  | .error e => .error e

/-- Embeds `Parser::isAtEnd`: `pos >= tokens.size() || tokens[pos].type == END_OF_FILE`
(short-circuit keeps the read in bounds). -/
def isAtEndP (tokens : List Token) (pos : Nat) : Bool :=
  decide (tokens.length ≤ pos) ||
    (match tokens.get? pos with
     | some t => t.type = .END_OF_FILE
     | none => false)

/-- Embeds `Parser::consume`: on a kind match it increments `pos` and returns
`tokens[pos - 2]` — the token BEFORE the one just matched (source slip kept
as is); on a mismatch it prints the message with the current lexeme and
exits. -/
def consumeP (tokens : List Token) (pos : Nat) (t : TokenType)
    (message : String) : Except PErr (Token × Nat) :=
  match peekP tokens pos with
  | .error e => .error e
  | .ok cur =>
    if cur.type = t then
      if ((pos : Int) + 1) - 2 < 0 then .error (.oobRead (((pos : Int) + 1) - 2))
      else
        match tokens.get? (((pos : Int) + 1) - 2).toNat with
        | some tk => .ok (tk, pos + 1)
        | none => .error (.oobRead (((pos : Int) + 1) - 2))
    else .error (.consumeFail message cur.lexeme)

/-- Embeds `Parser::getPrecedence`. -/
def getPrecedence : TokenType → Int
  | .ASSIGN | .PLUS_ASSIGN | .MINUS_ASSIGN | .STAR_ASSIGN
  | .SLASH_ASSIGN | .PERCENT_ASSIGN => 1
  | .OR => 2
  | .AND => 3
  | .EQUAL_EQUAL | .BANG_EQUAL | .NOT_EQUAL => 7
  | .LESS | .LESS_EQUAL | .GREATER | .GREATER_EQUAL => 8
  | .AMPERSAND | .PIPE | .CARET => 9
  | .PLUS | .MINUS => 10
  | .STAR | .SLASH | .PERCENT => 20
  | .POWERING => 30
  | _ => 0

mutual

/-- Embeds `Parser::expression`: unconditionally consume the driver token, apply
`nud`, and run the infix loop. -/
def expressionP : Nat → List Token → Int → Nat → Except PErr (Option Ast × Nat)
  | 0, _, _, _ => .error .fuelOut
  | f + 1, tokens, rbp, pos =>
    match advanceP tokens pos with
    | .error e => .error e
    | .ok (t, pos1) =>
      match nudP f tokens t pos1 with
      | .error e => .error e
      | .ok (none, pos2) => .ok (none, pos2)
      | .ok (some left, pos2) => ledLoop f tokens rbp left pos2
termination_by structural fuel _ _ _ => fuel

/-- The `while (!isAtEnd() && rbp < getPrecedence(peek().type))` loop of
`Parser::expression`. -/
def ledLoop : Nat → List Token → Int → Ast → Nat → Except PErr (Option Ast × Nat)
  | 0, _, _, _, _ => .error .fuelOut
  | f + 1, tokens, rbp, left, pos =>
    if isAtEndP tokens pos then .ok (some left, pos)
    else
      match peekP tokens pos with
      | .error e => .error e
      | .ok cur =>
        if rbp < getPrecedence cur.type then
          match advanceP tokens pos with
          | .error e => .error e
          | .ok (opTok, pos1) =>
            match ledP f tokens left opTok pos1 with
            | .error e => .error e
            | .ok (right, pos2) => ledLoop f tokens rbp right pos2
        else .ok (some left, pos)
termination_by structural fuel _ _ _ _ => fuel

/-- Embeds `Parser::nud`: `END_OF_FILE` yields a null pointer, literal and
identifier tokens yield leaves, `NEW` dispatches to the declaration
sub-rule, anything else throws. -/
def nudP : Nat → List Token → Token → Nat → Except PErr (Option Ast × Nat)
  | 0, _, _, _ => .error .fuelOut
  | f + 1, tokens, t, pos =>
    match t.type with
    | .END_OF_FILE => .ok (none, pos)
    | .NUMBER => .ok (some (.num (stodNat t.lexeme) t.loc), pos)
    | .STRING => .ok (some (.str t.lexeme t.loc), pos)
    | .IDENTIFIER => .ok (some (.ident t.lexeme t.loc), pos)
    | .NEW =>
      match parse_new_declP f tokens pos with
      | .error e => .error e
      | .ok (a, pos2) => .ok (some a, pos2)
    | _ => .error (.nudInvalid t.lexeme)
termination_by structural fuel _ _ _ => fuel

/-- Shared shape of every operator case of `Parser::led`: recurse with the
given binding power and build a `BinaryOpNode` with a fixed operator
string, the given left child and the recursion result (possibly null). -/
def ledBin : Nat → List Token → Ast → Loc → String → Int → Nat →
    Except PErr (Ast × Nat)
  | 0, _, _, _, _, _, _ => .error .fuelOut
  | f + 1, tokens, left, loc, op, bp, pos =>
    match expressionP f tokens bp pos with
    | .error e => .error e
    | .ok (right, pos2) => .ok (.binaryOp op left right loc, pos2)
termination_by structural fuel _ _ _ _ _ _ => fuel

/-- Embeds `Parser::led`: the assignment group and `POWERING` recurse with
`precedence - 1` (right-associative), everything else with `precedence`;
`OR` and `AND` build the operator strings `"or"` and `"and"`; an
unhandled kind exits. -/
def ledP : Nat → List Token → Ast → Token → Nat → Except PErr (Ast × Nat)
  | 0, _, _, _, _ => .error .fuelOut
  | f + 1, tokens, left, t, pos =>
    let precedence := getPrecedence t.type
    match t.type with
    | .PLUS => ledBin f tokens left t.loc "+" precedence pos
    | .MINUS => ledBin f tokens left t.loc "-" precedence pos
    | .STAR => ledBin f tokens left t.loc "*" precedence pos
    | .SLASH => ledBin f tokens left t.loc "/" precedence pos
    | .PERCENT => ledBin f tokens left t.loc "%" precedence pos
    | .POWERING => ledBin f tokens left t.loc "**" (precedence - 1) pos
    | .OR => ledBin f tokens left t.loc "or" precedence pos
    | .AND => ledBin f tokens left t.loc "and" precedence pos
    | .EQUAL_EQUAL => ledBin f tokens left t.loc "==" precedence pos
    | .BANG_EQUAL => ledBin f tokens left t.loc "!=" precedence pos
    | .NOT_EQUAL => ledBin f tokens left t.loc "!=" precedence pos
    | .LESS => ledBin f tokens left t.loc "<" precedence pos
    | .LESS_EQUAL => ledBin f tokens left t.loc "<=" precedence pos
    | .GREATER => ledBin f tokens left t.loc ">" precedence pos
    | .GREATER_EQUAL => ledBin f tokens left t.loc ">=" precedence pos
    | .AMPERSAND => ledBin f tokens left t.loc "&" precedence pos
    | .PIPE => ledBin f tokens left t.loc "|" precedence pos
    | .CARET => ledBin f tokens left t.loc "^" precedence pos
    | .ASSIGN => ledBin f tokens left t.loc "=" (precedence - 1) pos
    | .PLUS_ASSIGN => ledBin f tokens left t.loc "+=" (precedence - 1) pos
    | .MINUS_ASSIGN => ledBin f tokens left t.loc "-=" (precedence - 1) pos
    | .STAR_ASSIGN => ledBin f tokens left t.loc "*=" (precedence - 1) pos
    | .SLASH_ASSIGN => ledBin f tokens left t.loc "/=" (precedence - 1) pos
    | .PERCENT_ASSIGN => ledBin f tokens left t.loc "%=" (precedence - 1) pos
    | _ => .error (.ledInvalid t.lexeme)
termination_by structural fuel _ _ _ _ => fuel

/-- Embeds `Parser::parse_new_decl`: the debug `std::cout << peek().lexeme` lines
each perform an unchecked read of the token vector, so they are kept as
reads; `consume(NEW, ...)` is called although `expression` has already
consumed the `NEW` driver token (source slip kept as is). -/
def parse_new_declP : Nat → List Token → Nat → Except PErr (Ast × Nat)
  | 0, _, _ => .error .fuelOut
  | f + 1, tokens, pos =>
    match peekP tokens pos with
    | .error e => .error e
    | .ok _ =>
      match consumeP tokens pos .NEW "Expected 'new'" with
      | .error e => .error e
      | .ok (newToken, pos1) =>
        match peekP tokens pos1 with
        | .error e => .error e
        | .ok _ =>
          match peekP tokens pos1 with
          | .error e => .error e
          | .ok c1 =>
            if c1.type = .MUT then
              match consumeP tokens pos1 .MUT "Expected 'mut'" with
              | .error e => .error e
              | .ok (_, pos2) => newDeclRest f tokens newToken true pos2
            else newDeclRest f tokens newToken false pos1
termination_by structural fuel _ _ => fuel

/-- Tail of `Parser::parse_new_decl` from the point after the mutability
check: name, `:`, type, `=`, then the initializer expression. -/
def newDeclRest : Nat → List Token → Token → Bool → Nat → Except PErr (Ast × Nat)
  | 0, _, _, _, _ => .error .fuelOut
  | f + 1, tokens, newToken, isMutable, pos =>
    match peekP tokens pos with
    | .error e => .error e
    | .ok _ =>
      match consumeP tokens pos .IDENTIFIER "Expected identifier for variable name" with
      | .error e => .error e
      | .ok (varName, pos1) =>
        match peekP tokens pos1 with
        | .error e => .error e
        | .ok _ =>
          match consumeP tokens pos1 .COLON "Expected ':' after variable name" with
          | .error e => .error e
          | .ok (_, pos2) =>
            match peekP tokens pos2 with
            | .error e => .error e
            | .ok _ =>
              match consumeP tokens pos2 .IDENTIFIER "Expected type after ':'" with
              | .error e => .error e
              | .ok (_, pos3) =>
                match peekP tokens pos3 with
                | .error e => .error e
                | .ok _ =>
                  match consumeP tokens pos3 .EQUAL "Expected '=' after type" with
                  | .error e => .error e
                  | .ok (_, pos4) =>
                    match peekP tokens pos4 with
                    | .error e => .error e
                    | .ok _ =>
                      match expressionP f tokens 0 pos4 with
                      | .error e => .error e
                      | .ok (none, _) => .error .missingInitializer
                      | .ok (some v, pos5) =>
                        .ok (.varDeclaration varName.lexeme v isMutable newToken.loc, pos5)
termination_by structural fuel _ _ _ _ => fuel

end

/-- The `while (!isAtEnd())` loop of `Parser::parse`: collect statements,
catch thrown `std::exception`s (keeping what was collected and stopping),
and let `exit` calls and undefined behaviour abort everything. -/
def parseTop : Nat → List Token → Nat → List Ast → Except PErr (List Ast × Nat)
  | 0, _, _, _ => .error .fuelOut
  | f + 1, tokens, pos, acc =>
    if isAtEndP tokens pos then .ok (acc, pos)
    else
      match expressionP f tokens 0 pos with
      | .ok (some a, pos2) => parseTop f tokens pos2 (acc ++ [a])
      | .ok (none, pos2) => parseTop f tokens pos2 acc
      | .error e => if isCatchable e then .ok (acc, pos) else .error e

/-- Embeds `Parser::parse` on a token sequence, with a fuel bound ample for the
concrete inputs considered here. -/
def parse (tokens : List Token) : Except PErr (List Ast) :=
  match parseTop (8 * tokens.length + 8) tokens 0 [] with
  | .ok (acc, _) => .ok acc
  | .error e => .error e

/-- ANSI wrappers of `colorize.hpp`. -/
def colorRed (text : String) : String := "\x1b[31m" ++ text ++ "\x1b[0m"

/-- ANSI blue of `colorize.hpp`. -/
def colorBlue (text : String) : String := "\x1b[34m" ++ text ++ "\x1b[0m"

/-- ANSI bold of `colorize.hpp`. -/
def colorBold (text : String) : String := "\x1b[1m" ++ text ++ "\x1b[0m"

/-- The character the body line of `Error::errorMessage` prints:
`Contents[loc.line - 1]` indexes the WHOLE source string and yields a
single `char` (source slip kept as is).  A negative or out-of-range index
is undefined behaviour in the C++; the embedding returns NUL there. -/
def contentsCharAt (contents : String) (i : Int) : Char :=
  if i < 0 then nulChar else contents.data.getD i.toNat nulChar

/-- The caret row: `loc.end_column - loc.start_column` repetitions of a
bold red caret (none if the difference is negative). -/
def caretRow (loc : Loc) : String :=
  String.join (List.replicate (loc.end_column - loc.start_column).toNat
    (colorBold (colorRed "^")))

/-- Embeds `Error::errorMessage`, rendered to the exact string the `std::cout`
calls produce. -/
def errorMessage (lcl message : String) (loc : Loc)
    (filename contents : String) : String :=
  colorRed (colorBold (lcl ++ " error" ++ ": ") ++ message ++ "\n") ++
  colorBold ("---> " ++ filename ++ ":" ++ toString loc.line ++ ":" ++
    toString loc.start_column ++ "\n") ++
  colorBold (colorBlue "   |\n") ++
  colorBold (" " ++ toString loc.line ++ " |    ") ++
  String.mk [contentsCharAt contents (loc.line - 1)] ++ "\n" ++
  colorBold (colorBlue "   |    ") ++
  caretRow loc ++
  (" " ++ colorBold (colorRed message)) ++
  colorBold (colorBlue "\n   |\n")

/-- Whether `needle` is a leading segment of `hay`. -/
def seqStarts : List Char → List Char → Bool
  | [], _ => true
  | _ :: _, [] => false
  | a :: as, b :: bs => a == b && seqStarts as bs

/-- Whether `needle` occurs contiguously inside `hay`. -/
def containsSeq (needle : List Char) : List Char → Bool
  | [] => seqStarts needle []
  | b :: bs => seqStarts needle (b :: bs) || containsSeq needle bs

/-- The lexeme text attached by `Lexer::tokenize` to each token kind it can
emit in infix-capable position (positive precedence); `none` for kinds the
lexer never emits with positive precedence. -/
def opLexeme : TokenType → Option String
  | .PLUS => some "+"
  | .MINUS => some "-"
  | .STAR => some "*"
  | .SLASH => some "/"
  | .PERCENT => some "%"
  | .EQUAL_EQUAL => some "=="
  | .BANG_EQUAL => some "!="
  | .LESS => some "<"
  | .LESS_EQUAL => some "<="
  | .GREATER => some ">"
  | .GREATER_EQUAL => some ">="
  | .AND => some "&&"
  | .OR => some "||"
  | .AMPERSAND => some "&"
  | .PIPE => some "|"
  | .CARET => some "^"
  | _ => none

/-- Facts that hold of every token the lexer emits: the span arithmetic of
`create_loc`, a positive line, no `END_OF_FILE` sentinel, non-negative
start column except possibly for string literals, and the fixed lexeme of
every infix-capable kind. -/
def tokenWF (t : Token) : Prop :=
  t.loc.end_column - t.loc.start_column = (t.lexeme.length : Int) ∧
  t.loc.start_column ≤ t.loc.end_column ∧
  1 ≤ t.loc.line ∧
  t.type ≠ .END_OF_FILE ∧
  (t.type ≠ .STRING → 0 ≤ t.loc.start_column) ∧
  (0 < getPrecedence t.type → opLexeme t.type = some t.lexeme)

/-- The fixed operator string each case of `Parser::led` writes into the
`BinaryOpNode` it constructs; `none` for kinds `led` rejects. -/
def ledOpOf : TokenType → Option String
  | .PLUS => some "+"
  | .MINUS => some "-"
  | .STAR => some "*"
  | .SLASH => some "/"
  | .PERCENT => some "%"
  | .POWERING => some "**"
  | .OR => some "or"
  | .AND => some "and"
  | .EQUAL_EQUAL => some "=="
  | .BANG_EQUAL => some "!="
  | .NOT_EQUAL => some "!="
  | .LESS => some "<"
  | .LESS_EQUAL => some "<="
  | .GREATER => some ">"
  | .GREATER_EQUAL => some ">="
  | .AMPERSAND => some "&"
  | .PIPE => some "|"
  | .CARET => some "^"
  | .ASSIGN => some "="
  | .PLUS_ASSIGN => some "+="
  | .MINUS_ASSIGN => some "-="
  | .STAR_ASSIGN => some "*="
  | .SLASH_ASSIGN => some "/="
  | .PERCENT_ASSIGN => some "%="
  | _ => none

/-- The in-bounds contract of a parser routine's result: an out-of-bounds
read, when reported, is at exactly the sequence length, and a normal
return leaves the cursor within bounds. -/
def boundedRes {α : Type} (tokens : List Token)
    (r : Except PErr (α × Nat)) : Prop :=
  (∀ i, r = .error (.oobRead i) → i = (tokens.length : Int)) ∧
  (∀ a pos2, r = .ok (a, pos2) → pos2 ≤ tokens.length)


theorem lexAdvance_fst (src : List Char) (st : LexSt) :
    (lexAdvance src st).1 = peekCh src st := by
  unfold lexAdvance peekCh
  split <;> rfl

theorem lexAdvance_offset (src : List Char) (st : LexSt) :
    (lexAdvance src st).2.offset = st.offset + 1 := by
  unfold lexAdvance
  split <;> rfl

theorem lexAdvance_line_ge (src : List Char) (st : LexSt) :
    st.line ≤ (lexAdvance src st).2.line := by
  unfold lexAdvance
  split <;> simp

theorem lexAdvance_not_nl (src : List Char) (st : LexSt)
    (h : peekCh src st ≠ '\n') :
    (lexAdvance src st).2 = ⟨st.offset + 1, st.line, st.col + 1⟩ := by
  unfold peekCh at h
  unfold lexAdvance
  rw [if_neg h]

theorem lexAdvance_snd_cases (src : List Char) (st : LexSt) :
    (lexAdvance src st).2 = ⟨st.offset + 1, st.line + 1, 0⟩ ∨
      (lexAdvance src st).2 = ⟨st.offset + 1, st.line, st.col + 1⟩ := by
  unfold lexAdvance
  split
  · exact Or.inl rfl
  · exact Or.inr rfl

theorem peekCh_out (src : List Char) (st : LexSt)
    (h : src.length ≤ st.offset) : peekCh src st = nulChar := by
  unfold peekCh
  rw [List.getD_eq_default]
  exact h

theorem peekCh_ne_nul_lt (src : List Char) (st : LexSt)
    (h : peekCh src st ≠ nulChar) : st.offset < src.length := by
  by_contra hc
  exact h (peekCh_out src st (by omega))

/-- Offsets of a `scanWhile` run: the final offset is the initial one plus
the number of consumed characters, the line never decreases, and a guard
that requires in-range offsets keeps the final offset in range. -/
theorem scanWhile_spec (cond : List Char → LexSt → Bool)
    (hin : ∀ src st, cond src st = true → st.offset < src.length) :
    ∀ (fuel : Nat) (src : List Char) (st : LexSt) (cs : List Char) (st2 : LexSt),
      scanWhile cond fuel src st = .ok (cs, st2) →
      st2.offset = st.offset + cs.length ∧ st.line ≤ st2.line ∧
        st2.offset ≤ max st.offset src.length := by
  intro fuel
  induction fuel with
  | zero =>
    intro src st cs st2 h
    unfold scanWhile at h
    split at h
    · exact absurd h (by simp)
    · simp only [Except.ok.injEq, Prod.mk.injEq] at h
      obtain ⟨rfl, rfl⟩ := h
      simp only [List.length_nil]
      omega
  | succ f ih =>
    intro src st cs st2 h
    unfold scanWhile at h
    split at h
    · rename_i hg
      cases hrec : scanWhile cond f src (lexAdvance src st).2 with
      | error e => rw [hrec] at h; exact absurd h (by simp)
      | ok p =>
        obtain ⟨cs1, st1⟩ := p
        rw [hrec] at h
        simp only [Except.ok.injEq, Prod.mk.injEq] at h
        obtain ⟨rfl, rfl⟩ := h
        obtain ⟨h1, h2, h3⟩ := ih src (lexAdvance src st).2 cs1 st1 hrec
        have hoff := lexAdvance_offset src st
        have hline := lexAdvance_line_ge src st
        have hlt := hin src st hg
        refine ⟨?_, le_trans hline h2, ?_⟩
        · simp only [List.length_cons]
          omega
        · omega
    · simp only [Except.ok.injEq, Prod.mk.injEq] at h
      obtain ⟨rfl, rfl⟩ := h
      simp only [List.length_nil]
      omega

/-- A `scanWhile` run that starts with a true guard consumes at least one
character. -/
theorem scanWhile_progress (cond : List Char → LexSt → Bool) (fuel : Nat)
    (src : List Char) (st : LexSt) (cs : List Char) (st2 : LexSt)
    (hg : cond src st = true)
    (h : scanWhile cond fuel src st = .ok (cs, st2)) : 1 ≤ cs.length := by
  cases fuel with
  | zero =>
    unfold scanWhile at h
    rw [if_pos hg] at h
    exact absurd h (by simp)
  | succ f =>
    unfold scanWhile at h
    rw [if_pos hg] at h
    cases hrec : scanWhile cond f src (lexAdvance src st).2 with
    | error e => rw [hrec] at h; exact absurd h (by simp)
    | ok p =>
      obtain ⟨cs1, st1⟩ := p
      rw [hrec] at h
      simp only [Except.ok.injEq, Prod.mk.injEq] at h
      obtain ⟨rfl, rfl⟩ := h
      simp

/-- With fuel at least the number of remaining characters, a `scanWhile`
run never exhausts its fuel, provided the guard requires in-range offsets. -/
theorem scanWhile_fuel (cond : List Char → LexSt → Bool)
    (hin : ∀ src st, cond src st = true → st.offset < src.length) :
    ∀ (fuel : Nat) (src : List Char) (st : LexSt),
      src.length - st.offset ≤ fuel →
      ∃ r, scanWhile cond fuel src st = .ok r := by
  intro fuel
  induction fuel with
  | zero =>
    intro src st h
    unfold scanWhile
    cases hg : cond src st with
    | true => exact absurd (hin src st hg) (by omega)
    | false => exact ⟨([], st), by rw [if_neg (by simp)]⟩
  | succ f ih =>
    intro src st h
    unfold scanWhile
    cases hg : cond src st with
    | false => exact ⟨([], st), by rw [if_neg (by simp)]⟩
    | true =>
      have hlt := hin src st hg
      have hoff := lexAdvance_offset src st
      obtain ⟨⟨cs1, st1⟩, hrec⟩ := ih src (lexAdvance src st).2 (by omega)
      refine ⟨((lexAdvance src st).1 :: cs1, st1), ?_⟩
      rw [if_pos rfl, hrec]

/-- A scan whose guard excludes newlines leaves the line unchanged and
advances the column by exactly the number of consumed characters. -/
theorem scanWhile_no_nl (cond : List Char → LexSt → Bool)
    (hnl : ∀ src st, cond src st = true → peekCh src st ≠ '\n') :
    ∀ (fuel : Nat) (src : List Char) (st : LexSt) (cs : List Char) (st2 : LexSt),
      scanWhile cond fuel src st = .ok (cs, st2) →
      st2.line = st.line ∧ st2.col = st.col + cs.length := by
  intro fuel
  induction fuel with
  | zero =>
    intro src st cs st2 h
    unfold scanWhile at h
    split at h
    · exact absurd h (by simp)
    · simp only [Except.ok.injEq, Prod.mk.injEq] at h
      obtain ⟨rfl, rfl⟩ := h
      simp
  | succ f ih =>
    intro src st cs st2 h
    unfold scanWhile at h
    split at h
    · rename_i hg
      cases hrec : scanWhile cond f src (lexAdvance src st).2 with
      | error e => rw [hrec] at h; exact absurd h (by simp)
      | ok p =>
        obtain ⟨cs1, st1⟩ := p
        rw [hrec] at h
        simp only [Except.ok.injEq, Prod.mk.injEq] at h
        obtain ⟨rfl, rfl⟩ := h
        obtain ⟨h1, h2⟩ := ih src (lexAdvance src st).2 cs1 st1 hrec
        rw [lexAdvance_not_nl src st (hnl src st hg)] at h1 h2
        dsimp only at h1 h2
        simp only [List.length_cons]
        omega
    · simp only [Except.ok.injEq, Prod.mk.injEq] at h
      obtain ⟨rfl, rfl⟩ := h
      simp

theorem digitCond_in (src : List Char) (st : LexSt)
    (h : digitCond src st = true) : st.offset < src.length := by
  unfold digitCond at h
  simp only [Bool.and_eq_true, decide_eq_true_eq] at h
  exact h.1

theorem digitCond_no_nl (src : List Char) (st : LexSt)
    (h : digitCond src st = true) : peekCh src st ≠ '\n' := by
  unfold digitCond at h
  simp only [Bool.and_eq_true, decide_eq_true_eq] at h
  intro hc
  rw [hc] at h
  exact absurd h.2 (by decide)

theorem strCond_in (src : List Char) (st : LexSt)
    (h : strCond src st = true) : st.offset < src.length := by
  unfold strCond at h
  simp only [Bool.and_eq_true, decide_eq_true_eq] at h
  exact h.1

theorem identCond_in (src : List Char) (st : LexSt)
    (h : identCond src st = true) : st.offset < src.length := by
  unfold identCond at h
  simp only [Bool.and_eq_true, decide_eq_true_eq] at h
  exact h.1

theorem identCond_no_nl (src : List Char) (st : LexSt)
    (h : identCond src st = true) : peekCh src st ≠ '\n' := by
  unfold identCond at h
  simp only [Bool.and_eq_true, Bool.or_eq_true, decide_eq_true_eq] at h
  intro hc
  rw [hc] at h
  rcases h.2 with h2 | h2
  · exact absurd h2 (by decide)
  · exact absurd h2 (by simp)

theorem create_token_wf (st : LexSt) (ty : TokenType) (lex : String)
    (hline : 1 ≤ st.line) (hty : ty ≠ .END_OF_FILE)
    (hcol : ty ≠ .STRING → lex.length ≤ st.col)
    (hop : 0 < getPrecedence ty → opLexeme ty = some lex) :
    tokenWF (create_token st ty lex) := by
  unfold tokenWF create_token create_loc
  dsimp only
  refine ⟨by ring, by omega, by omega, hty, ?_, hop⟩
  intro hs
  have := hcol hs
  omega

set_option maxHeartbeats 1000000 in
theorem keywordType_props (s : String) (ty : TokenType)
    (h : keywordType s = some ty) :
    ty ≠ .END_OF_FILE ∧ ty ≠ .STRING ∧ getPrecedence ty = 0 := by
  unfold keywordType at h
  split_ifs at h <;>
    first
      | exact Option.noConfusion h
      | (injection h with h2
         subst h2
         exact ⟨by decide, by decide, by decide⟩)

theorem lexing_number_wf (fuel : Nat) (src : List Char) (st : LexSt)
    (t : Token) (st2 : LexSt) (hline : 1 ≤ st.line)
    (h : lexing_number fuel src st = .ok (t, st2)) :
    tokenWF t ∧ 1 ≤ st2.line ∧ st.offset ≤ st2.offset ∧
      st2.offset ≤ max st.offset src.length ∧
      (digitCond src st = true → st.offset < st2.offset) := by
  unfold lexing_number takeDigits at h
  cases hrec : scanWhile digitCond fuel src st with
  | error e => rw [hrec] at h; exact absurd h (by simp)
  | ok p =>
    obtain ⟨cs, st3⟩ := p
    rw [hrec] at h
    simp only [Except.ok.injEq, Prod.mk.injEq] at h
    obtain ⟨rfl, rfl⟩ := h
    obtain ⟨ho, hl, hb⟩ := scanWhile_spec digitCond digitCond_in fuel src st cs st3 hrec
    obtain ⟨hl2, hc2⟩ := scanWhile_no_nl digitCond digitCond_no_nl fuel src st cs st3 hrec
    refine ⟨?_, by omega, by omega, hb, ?_⟩
    · apply create_token_wf _ _ _ (by omega) (by decide) ?_
        (fun hp => absurd hp (by decide))
      intro _
      rw [show (String.mk cs).length = cs.length from rfl]
      omega
    · intro hg
      have := scanWhile_progress digitCond fuel src st cs st3 hg hrec
      omega

theorem lexing_string_wf (fuel : Nat) (src : List Char) (st : LexSt)
    (t : Token) (st2 : LexSt) (hline : 1 ≤ st.line)
    (hlt : st.offset < src.length)
    (h : lexing_string fuel src st = .ok (t, st2)) :
    tokenWF t ∧ 1 ≤ st2.line ∧ st.offset < st2.offset ∧
      st2.offset ≤ src.length := by
  unfold lexing_string takeStrChars at h
  cases hrec : scanWhile strCond fuel src (lexAdvance src st).2 with
  | error e => rw [hrec] at h; exact absurd h (by simp)
  | ok p =>
    obtain ⟨cs, st3⟩ := p
    rw [hrec] at h
    dsimp only at h
    split at h
    · exact absurd h (by simp)
    · rename_i hlen
      simp only [Except.ok.injEq, Prod.mk.injEq] at h
      obtain ⟨rfl, rfl⟩ := h
      obtain ⟨ho, hl, hb⟩ :=
        scanWhile_spec strCond strCond_in fuel src (lexAdvance src st).2 cs st3 hrec
      have hoff1 := lexAdvance_offset src st
      have hline1 := lexAdvance_line_ge src st
      have hoff3 := lexAdvance_offset src st3
      have hline3 := lexAdvance_line_ge src st3
      refine ⟨?_, by omega, by omega, by omega⟩
      exact create_token_wf _ _ _ (by omega) (by decide)
        (fun hs => absurd rfl hs) (fun hp => absurd hp (by decide))

theorem lexing_identifier_wf (fuel : Nat) (src : List Char) (st : LexSt)
    (t : Token) (st2 : LexSt) (hline : 1 ≤ st.line)
    (h : lexing_identifier fuel src st = .ok (t, st2)) :
    tokenWF t ∧ 1 ≤ st2.line ∧ st.offset ≤ st2.offset ∧
      st2.offset ≤ max st.offset src.length ∧
      (identCond src st = true → st.offset < st2.offset) := by
  unfold lexing_identifier takeIdentChars at h
  cases hrec : scanWhile identCond fuel src st with
  | error e => rw [hrec] at h; exact absurd h (by simp)
  | ok p =>
    obtain ⟨cs, st3⟩ := p
    rw [hrec] at h
    dsimp only at h
    obtain ⟨ho, hl, hb⟩ := scanWhile_spec identCond identCond_in fuel src st cs st3 hrec
    obtain ⟨hl2, hc2⟩ := scanWhile_no_nl identCond identCond_no_nl fuel src st cs st3 hrec
    have hprog : identCond src st = true → 1 ≤ cs.length :=
      fun hg => scanWhile_progress identCond fuel src st cs st3 hg hrec
    cases hk : keywordType (String.mk cs) with
    | some ty =>
      rw [hk] at h
      simp only [Except.ok.injEq, Prod.mk.injEq] at h
      obtain ⟨rfl, rfl⟩ := h
      obtain ⟨k1, k2, k3⟩ := keywordType_props _ _ hk
      refine ⟨?_, by omega, by omega, hb, fun hg => by have := hprog hg; omega⟩
      apply create_token_wf _ _ _ (by omega) k1 ?_ ?_
      · intro _
        rw [show (String.mk cs).length = cs.length from rfl]
        omega
      · intro hp
        rw [k3] at hp
        exact absurd hp (by decide)
    | none =>
      rw [hk] at h
      simp only [Except.ok.injEq, Prod.mk.injEq] at h
      obtain ⟨rfl, rfl⟩ := h
      refine ⟨?_, by omega, by omega, hb, fun hg => by have := hprog hg; omega⟩
      apply create_token_wf _ _ _ (by omega) (by decide) ?_
        (fun hp => absurd hp (by decide))
      intro _
      rw [show (String.mk cs).length = cs.length from rfl]
      omega

theorem twoCharOp_wf (src : List Char) (st : LexSt) (second : Char)
    (two : TokenType) (twoLex : String) (one : TokenType) (oneLex : String)
    (hline : 1 ≤ st.line) (hlt : st.offset < src.length)
    (hnl1 : peekCh src st ≠ '\n') (hnl2 : second ≠ '\n') (hnz : second ≠ nulChar)
    (h2a : two ≠ .END_OF_FILE) (h2b : two ≠ .STRING) (h2c : twoLex.length = 2)
    (h2d : 0 < getPrecedence two → opLexeme two = some twoLex)
    (h1a : one ≠ .END_OF_FILE) (h1b : one ≠ .STRING) (h1c : oneLex.length = 1)
    (h1d : 0 < getPrecedence one → opLexeme one = some oneLex) :
    tokenWF (twoCharOp src st second two twoLex one oneLex).1 ∧
      1 ≤ (twoCharOp src st second two twoLex one oneLex).2.line ∧
      st.offset < (twoCharOp src st second two twoLex one oneLex).2.offset ∧
      (twoCharOp src st second two twoLex one oneLex).2.offset ≤ src.length := by
  unfold twoCharOp
  rw [lexAdvance_not_nl src st hnl1]
  split
  · rename_i hp2
    have hlt1 : st.offset + 1 < src.length := by
      have := peekCh_ne_nul_lt src ⟨st.offset + 1, st.line, st.col + 1⟩
        (by rw [hp2]; exact hnz)
      exact this
    have hnl2b : peekCh src (⟨st.offset + 1, st.line, st.col + 1⟩ : LexSt) ≠ '\n' := by
      rw [hp2]; exact hnl2
    rw [lexAdvance_not_nl _ _ hnl2b]
    dsimp only
    refine ⟨?_, by omega, by omega, by omega⟩
    apply create_token_wf _ _ _ (by dsimp only; omega) h2a ?_ h2d
    intro _
    dsimp only
    omega
  · dsimp only
    refine ⟨?_, by omega, by omega, by omega⟩
    apply create_token_wf _ _ _ (by dsimp only; omega) h1a ?_ h1d
    intro _
    dsimp only
    omega

theorem singleOp_wf (src : List Char) (st : LexSt) (ty : TokenType)
    (hline : 1 ≤ st.line) (hlt : st.offset < src.length)
    (hnl : peekCh src st ≠ '\n')
    (hty : ty ≠ .END_OF_FILE) (hstr : ty ≠ .STRING)
    (hop : 0 < getPrecedence ty → opLexeme ty = some (String.mk [peekCh src st])) :
    tokenWF (singleOp src st ty).1 ∧ 1 ≤ (singleOp src st ty).2.line ∧
      st.offset < (singleOp src st ty).2.offset ∧
      (singleOp src st ty).2.offset ≤ src.length := by
  unfold singleOp
  rw [lexAdvance_fst, lexAdvance_not_nl src st hnl]
  dsimp only
  refine ⟨?_, by omega, by omega, by omega⟩
  apply create_token_wf _ _ _ (by dsimp only; omega) hty ?_ hop
  intro _
  dsimp only
  rw [show (String.mk [peekCh src st]).length = 1 from rfl]
  omega

/-- What one single-character-operator step of `Lexer::tokenize` emits. -/
theorem singleStep_main (src : List Char) (st : LexSt) (ty : TokenType)
    (ts : List Token) (st2 : LexSt)
    (hline : 1 ≤ st.line) (hlt : st.offset < src.length)
    (hnl : peekCh src st ≠ '\n')
    (hty : ty ≠ .END_OF_FILE) (hstr : ty ≠ .STRING)
    (hop : 0 < getPrecedence ty → opLexeme ty = some (String.mk [peekCh src st]))
    (h : singleStep src st ty = .ok (ts, st2)) :
    (∀ t ∈ ts, tokenWF t) ∧ 1 ≤ st2.line ∧ st.offset < st2.offset ∧
      st2.offset ≤ src.length := by
  unfold singleStep at h
  simp only [Except.ok.injEq, Prod.mk.injEq] at h
  obtain ⟨rfl, rfl⟩ := h
  obtain ⟨w1, w2, w3, w4⟩ := singleOp_wf src st ty hline hlt hnl hty hstr hop
  exact ⟨fun t ht => by rw [List.mem_singleton] at ht; exact ht ▸ w1, w2, w3, w4⟩

/-- What one two-character-lookahead operator step of `Lexer::tokenize`
emits. -/
theorem twoStep_main (src : List Char) (st : LexSt) (second : Char)
    (two : TokenType) (twoLex : String) (one : TokenType) (oneLex : String)
    (ts : List Token) (st2 : LexSt)
    (hline : 1 ≤ st.line) (hlt : st.offset < src.length)
    (hnl1 : peekCh src st ≠ '\n') (hnl2 : second ≠ '\n') (hnz : second ≠ nulChar)
    (h2a : two ≠ .END_OF_FILE) (h2b : two ≠ .STRING) (h2c : twoLex.length = 2)
    (h2d : 0 < getPrecedence two → opLexeme two = some twoLex)
    (h1a : one ≠ .END_OF_FILE) (h1b : one ≠ .STRING) (h1c : oneLex.length = 1)
    (h1d : 0 < getPrecedence one → opLexeme one = some oneLex)
    (h : twoStep src st second two twoLex one oneLex = .ok (ts, st2)) :
    (∀ t ∈ ts, tokenWF t) ∧ 1 ≤ st2.line ∧ st.offset < st2.offset ∧
      st2.offset ≤ src.length := by
  unfold twoStep at h
  simp only [Except.ok.injEq, Prod.mk.injEq] at h
  obtain ⟨rfl, rfl⟩ := h
  obtain ⟨w1, w2, w3, w4⟩ := twoCharOp_wf src st second two twoLex one oneLex
    hline hlt hnl1 hnl2 hnz h2a h2b h2c h2d h1a h1b h1c h1d
  exact ⟨fun t ht => by rw [List.mem_singleton] at ht; exact ht ▸ w1, w2, w3, w4⟩

set_option maxHeartbeats 1000000 in
/-- One iteration of the tokenize loop, started in range on a line ≥ 1,
emits only well-formed tokens, keeps the line ≥ 1, makes strict progress,
and stays within the buffer. -/
theorem lexStep_main (fuel : Nat) (src : List Char) (st : LexSt)
    (ts : List Token) (st2 : LexSt)
    (hlt : st.offset < src.length) (hline : 1 ≤ st.line)
    (h : lexStep fuel src st = .ok (ts, st2)) :
    (∀ t ∈ ts, tokenWF t) ∧ 1 ≤ st2.line ∧ st.offset < st2.offset ∧
      st2.offset ≤ src.length := by
  unfold lexStep at h
  by_cases hsp : isSpaceC (peekCh src st) = true
  · rw [if_pos hsp] at h
    simp only [Except.ok.injEq, Prod.mk.injEq] at h
    obtain ⟨rfl, rfl⟩ := h
    have h1 := lexAdvance_offset src st
    have h2 := lexAdvance_line_ge src st
    exact ⟨by simp, by omega, by omega, by omega⟩
  rw [if_neg hsp] at h
  by_cases hdg : (peekCh src st).isDigit = true
  · rw [if_pos hdg] at h
    cases hn : lexing_number fuel src st with
    | error e => rw [hn] at h; dsimp only at h; exact Except.noConfusion h
    | ok p =>
      obtain ⟨tk, st3⟩ := p
      rw [hn] at h
      dsimp only at h
      simp only [Except.ok.injEq, Prod.mk.injEq] at h
      obtain ⟨rfl, rfl⟩ := h
      obtain ⟨w1, w2, w3, w4, w5⟩ := lexing_number_wf fuel src st tk st3 hline hn
      have hg : digitCond src st = true := by
        unfold digitCond
        simp only [Bool.and_eq_true, decide_eq_true_eq]
        exact ⟨hlt, hdg⟩
      exact ⟨fun t ht => by rw [List.mem_singleton] at ht; exact ht ▸ w1,
        w2, w5 hg, by omega⟩
  rw [if_neg hdg] at h
  by_cases hqt : peekCh src st = '"'
  · rw [if_pos hqt] at h
    cases hn : lexing_string fuel src st with
    | error e => rw [hn] at h; dsimp only at h; exact Except.noConfusion h
    | ok p =>
      obtain ⟨tk, st3⟩ := p
      rw [hn] at h
      dsimp only at h
      simp only [Except.ok.injEq, Prod.mk.injEq] at h
      obtain ⟨rfl, rfl⟩ := h
      obtain ⟨w1, w2, w3, w4⟩ := lexing_string_wf fuel src st tk st3 hline hlt hn
      exact ⟨fun t ht => by rw [List.mem_singleton] at ht; exact ht ▸ w1, w2, w3, w4⟩
  rw [if_neg hqt] at h
  by_cases hid : (peekCh src st).isAlpha = true ∨ peekCh src st = '_'
  · rw [if_pos hid] at h
    cases hn : lexing_identifier fuel src st with
    | error e => rw [hn] at h; dsimp only at h; exact Except.noConfusion h
    | ok p =>
      obtain ⟨tk, st3⟩ := p
      rw [hn] at h
      dsimp only at h
      simp only [Except.ok.injEq, Prod.mk.injEq] at h
      obtain ⟨rfl, rfl⟩ := h
      obtain ⟨w1, w2, w3, w4, w5⟩ := lexing_identifier_wf fuel src st tk st3 hline hn
      have hg : identCond src st = true := by
        unfold identCond
        simp only [Bool.and_eq_true, Bool.or_eq_true, decide_eq_true_eq, beq_iff_eq]
        refine ⟨hlt, ?_⟩
        rcases hid with hA | hU
        · left
          unfold Char.isAlphanum
          simp [hA]
        · right
          exact hU
      exact ⟨fun t ht => by rw [List.mem_singleton] at ht; exact ht ▸ w1,
        w2, w5 hg, by omega⟩
  rw [if_neg hid] at h
  by_cases h5 : peekCh src st = '='
  · rw [if_pos h5] at h
    exact twoStep_main src st '=' .EQUAL_EQUAL "==" .EQUAL "=" ts st2 hline hlt
      (by rw [h5]; decide) (by decide) (by decide)
      (by decide) (by decide) (by decide) (by decide)
      (by decide) (by decide) (by decide) (by decide) h
  rw [if_neg h5] at h
  by_cases h6 : peekCh src st = '!'
  · rw [if_pos h6] at h
    exact twoStep_main src st '=' .BANG_EQUAL "!=" .BANG "!" ts st2 hline hlt
      (by rw [h6]; decide) (by decide) (by decide)
      (by decide) (by decide) (by decide) (by decide)
      (by decide) (by decide) (by decide) (by decide) h
  rw [if_neg h6] at h
  by_cases h7 : peekCh src st = '<'
  · rw [if_pos h7] at h
    exact twoStep_main src st '=' .LESS_EQUAL "<=" .LESS "<" ts st2 hline hlt
      (by rw [h7]; decide) (by decide) (by decide)
      (by decide) (by decide) (by decide) (by decide)
      (by decide) (by decide) (by decide) (by decide) h
  rw [if_neg h7] at h
  by_cases h8 : peekCh src st = '>'
  · rw [if_pos h8] at h
    exact twoStep_main src st '=' .GREATER_EQUAL ">=" .GREATER ">" ts st2 hline hlt
      (by rw [h8]; decide) (by decide) (by decide)
      (by decide) (by decide) (by decide) (by decide)
      (by decide) (by decide) (by decide) (by decide) h
  rw [if_neg h8] at h
  by_cases h9 : peekCh src st = '&'
  · rw [if_pos h9] at h
    exact twoStep_main src st '&' .AND "&&" .AMPERSAND "&" ts st2 hline hlt
      (by rw [h9]; decide) (by decide) (by decide)
      (by decide) (by decide) (by decide) (by decide)
      (by decide) (by decide) (by decide) (by decide) h
  rw [if_neg h9] at h
  by_cases h10 : peekCh src st = '|'
  · rw [if_pos h10] at h
    exact twoStep_main src st '|' .OR "||" .PIPE "|" ts st2 hline hlt
      (by rw [h10]; decide) (by decide) (by decide)
      (by decide) (by decide) (by decide) (by decide)
      (by decide) (by decide) (by decide) (by decide) h
  rw [if_neg h10] at h
  by_cases h11 : peekCh src st = '+'
  · rw [if_pos h11] at h
    exact singleStep_main src st .PLUS ts st2 hline hlt (by rw [h11]; decide)
      (by decide) (by decide) (by rw [h11]; decide) h
  rw [if_neg h11] at h
  by_cases h12 : peekCh src st = '-'
  · rw [if_pos h12] at h
    exact singleStep_main src st .MINUS ts st2 hline hlt (by rw [h12]; decide)
      (by decide) (by decide) (by rw [h12]; decide) h
  rw [if_neg h12] at h
  by_cases h13 : peekCh src st = '*'
  · rw [if_pos h13] at h
    exact singleStep_main src st .STAR ts st2 hline hlt (by rw [h13]; decide)
      (by decide) (by decide) (by rw [h13]; decide) h
  rw [if_neg h13] at h
  by_cases h14 : peekCh src st = '/'
  · rw [if_pos h14] at h
    exact singleStep_main src st .SLASH ts st2 hline hlt (by rw [h14]; decide)
      (by decide) (by decide) (by rw [h14]; decide) h
  rw [if_neg h14] at h
  by_cases h15 : peekCh src st = '%'
  · rw [if_pos h15] at h
    exact singleStep_main src st .PERCENT ts st2 hline hlt (by rw [h15]; decide)
      (by decide) (by decide) (by rw [h15]; decide) h
  rw [if_neg h15] at h
  by_cases h16 : peekCh src st = '^'
  · rw [if_pos h16] at h
    exact singleStep_main src st .CARET ts st2 hline hlt (by rw [h16]; decide)
      (by decide) (by decide) (by rw [h16]; decide) h
  rw [if_neg h16] at h
  by_cases h17 : peekCh src st = '~'
  · rw [if_pos h17] at h
    exact singleStep_main src st .TILDE ts st2 hline hlt (by rw [h17]; decide)
      (by decide) (by decide) (by rw [h17]; decide) h
  rw [if_neg h17] at h
  by_cases h18 : peekCh src st = '?'
  · rw [if_pos h18] at h
    exact singleStep_main src st .QUESTION ts st2 hline hlt (by rw [h18]; decide)
      (by decide) (by decide) (by rw [h18]; decide) h
  rw [if_neg h18] at h
  by_cases h19 : peekCh src st = ','
  · rw [if_pos h19] at h
    exact singleStep_main src st .COMMA ts st2 hline hlt (by rw [h19]; decide)
      (by decide) (by decide) (by rw [h19]; decide) h
  rw [if_neg h19] at h
  by_cases h20 : peekCh src st = ';'
  · rw [if_pos h20] at h
    exact singleStep_main src st .SEMICOLON ts st2 hline hlt (by rw [h20]; decide)
      (by decide) (by decide) (by rw [h20]; decide) h
  rw [if_neg h20] at h
  by_cases h21 : peekCh src st = ':'
  · rw [if_pos h21] at h
    exact singleStep_main src st .COLON ts st2 hline hlt (by rw [h21]; decide)
      (by decide) (by decide) (by rw [h21]; decide) h
  rw [if_neg h21] at h
  by_cases h22 : peekCh src st = '.'
  · rw [if_pos h22] at h
    exact singleStep_main src st .DOT ts st2 hline hlt (by rw [h22]; decide)
      (by decide) (by decide) (by rw [h22]; decide) h
  rw [if_neg h22] at h
  by_cases h23 : peekCh src st = '('
  · rw [if_pos h23] at h
    exact singleStep_main src st .LEFT_PAREN ts st2 hline hlt (by rw [h23]; decide)
      (by decide) (by decide) (by rw [h23]; decide) h
  rw [if_neg h23] at h
  by_cases h24 : peekCh src st = ')'
  · rw [if_pos h24] at h
    exact singleStep_main src st .RIGHT_PAREN ts st2 hline hlt (by rw [h24]; decide)
      (by decide) (by decide) (by rw [h24]; decide) h
  rw [if_neg h24] at h
  by_cases h25 : peekCh src st = '\x7b'
  · rw [if_pos h25] at h
    exact singleStep_main src st .LEFT_BRACE ts st2 hline hlt (by rw [h25]; decide)
      (by decide) (by decide) (by rw [h25]; decide) h
  rw [if_neg h25] at h
  by_cases h26 : peekCh src st = '\x7d'
  · rw [if_pos h26] at h
    exact singleStep_main src st .RIGHT_BRACE ts st2 hline hlt (by rw [h26]; decide)
      (by decide) (by decide) (by rw [h26]; decide) h
  rw [if_neg h26] at h
  by_cases h27 : peekCh src st = '['
  · rw [if_pos h27] at h
    exact singleStep_main src st .LEFT_BRACKET ts st2 hline hlt (by rw [h27]; decide)
      (by decide) (by decide) (by rw [h27]; decide) h
  rw [if_neg h27] at h
  by_cases h28 : peekCh src st = ']'
  · rw [if_pos h28] at h
    exact singleStep_main src st .RIGHT_BRACKET ts st2 hline hlt (by rw [h28]; decide)
      (by decide) (by decide) (by rw [h28]; decide) h
  rw [if_neg h28] at h
  exact Except.noConfusion h

theorem lexing_number_fuel (fuel : Nat) (src : List Char) (st : LexSt)
    (hfu : src.length - st.offset ≤ fuel) :
    ∃ r, lexing_number fuel src st = .ok r := by
  obtain ⟨⟨cs, st2⟩, hr⟩ := scanWhile_fuel digitCond digitCond_in fuel src st hfu
  refine ⟨(create_token st2 .NUMBER (String.mk cs), st2), ?_⟩
  unfold lexing_number takeDigits
  rw [hr]

theorem lexing_identifier_fuel (fuel : Nat) (src : List Char) (st : LexSt)
    (hfu : src.length - st.offset ≤ fuel) :
    ∃ r, lexing_identifier fuel src st = .ok r := by
  obtain ⟨⟨cs, st2⟩, hr⟩ := scanWhile_fuel identCond identCond_in fuel src st hfu
  unfold lexing_identifier takeIdentChars
  rw [hr]
  dsimp only
  cases keywordType (String.mk cs) <;> exact ⟨_, rfl⟩

theorem lexing_string_fuel (fuel : Nat) (src : List Char) (st : LexSt)
    (hfu : src.length - st.offset ≤ fuel) :
    lexing_string fuel src st ≠ .error .fuelOut := by
  obtain ⟨⟨cs, st2⟩, hr⟩ := scanWhile_fuel strCond strCond_in fuel src (lexAdvance src st).2
    (by have := lexAdvance_offset src st; omega)
  unfold lexing_string takeStrChars
  rw [hr]
  dsimp only
  split <;> simp

set_option maxHeartbeats 1000000 in
/-- With fuel at least the remaining length, one tokenize iteration never
exhausts its fuel. -/
theorem lexStep_no_fuelOut (fuel : Nat) (src : List Char) (st : LexSt)
    (hfu : src.length - st.offset ≤ fuel) :
    lexStep fuel src st ≠ .error .fuelOut := by
  unfold lexStep
  by_cases hsp : isSpaceC (peekCh src st) = true
  · rw [if_pos hsp]
    simp
  rw [if_neg hsp]
  by_cases hdg : (peekCh src st).isDigit = true
  · rw [if_pos hdg]
    obtain ⟨⟨tk, st3⟩, hr⟩ := lexing_number_fuel fuel src st hfu
    rw [hr]
    simp
  rw [if_neg hdg]
  by_cases hqt : peekCh src st = '"'
  · rw [if_pos hqt]
    cases hr : lexing_string fuel src st with
    | error e =>
      dsimp only
      intro hc
      injection hc with he
      rw [he] at hr
      exact lexing_string_fuel fuel src st hfu hr
    | ok p =>
      obtain ⟨tk, st3⟩ := p
      simp
  rw [if_neg hqt]
  by_cases hid : (peekCh src st).isAlpha = true ∨ peekCh src st = '_'
  · rw [if_pos hid]
    obtain ⟨⟨tk, st3⟩, hr⟩ := lexing_identifier_fuel fuel src st hfu
    rw [hr]
    simp
  rw [if_neg hid]
  by_cases h5 : peekCh src st = '='
  · rw [if_pos h5]
    unfold twoStep
    simp
  rw [if_neg h5] 
  by_cases h6 : peekCh src st = '!'
  · rw [if_pos h6]
    unfold twoStep
    simp
  rw [if_neg h6] 
  by_cases h7 : peekCh src st = '<'
  · rw [if_pos h7]
    unfold twoStep
    simp
  rw [if_neg h7] 
  by_cases h8 : peekCh src st = '>'
  · rw [if_pos h8]
    unfold twoStep
    simp
  rw [if_neg h8] 
  by_cases h9 : peekCh src st = '&'
  · rw [if_pos h9]
    unfold twoStep
    simp
  rw [if_neg h9] 
  by_cases h10 : peekCh src st = '|'
  · rw [if_pos h10]
    unfold twoStep
    simp
  rw [if_neg h10] 
  by_cases h11 : peekCh src st = '+'
  · rw [if_pos h11]
    unfold singleStep
    simp
  rw [if_neg h11] 
  by_cases h12 : peekCh src st = '-'
  · rw [if_pos h12]
    unfold singleStep
    simp
  rw [if_neg h12] 
  by_cases h13 : peekCh src st = '*'
  · rw [if_pos h13]
    unfold singleStep
    simp
  rw [if_neg h13] 
  by_cases h14 : peekCh src st = '/'
  · rw [if_pos h14]
    unfold singleStep
    simp
  rw [if_neg h14] 
  by_cases h15 : peekCh src st = '%'
  · rw [if_pos h15]
    unfold singleStep
    simp
  rw [if_neg h15] 
  by_cases h16 : peekCh src st = '^'
  · rw [if_pos h16]
    unfold singleStep
    simp
  rw [if_neg h16] 
  by_cases h17 : peekCh src st = '~'
  · rw [if_pos h17]
    unfold singleStep
    simp
  rw [if_neg h17] 
  by_cases h18 : peekCh src st = '?'
  · rw [if_pos h18]
    unfold singleStep
    simp
  rw [if_neg h18] 
  by_cases h19 : peekCh src st = ','
  · rw [if_pos h19]
    unfold singleStep
    simp
  rw [if_neg h19] 
  by_cases h20 : peekCh src st = ';'
  · rw [if_pos h20]
    unfold singleStep
    simp
  rw [if_neg h20] 
  by_cases h21 : peekCh src st = ':'
  · rw [if_pos h21]
    unfold singleStep
    simp
  rw [if_neg h21] 
  by_cases h22 : peekCh src st = '.'
  · rw [if_pos h22]
    unfold singleStep
    simp
  rw [if_neg h22] 
  by_cases h23 : peekCh src st = '('
  · rw [if_pos h23]
    unfold singleStep
    simp
  rw [if_neg h23] 
  by_cases h24 : peekCh src st = ')'
  · rw [if_pos h24]
    unfold singleStep
    simp
  rw [if_neg h24] 
  by_cases h25 : peekCh src st = '\x7b'
  · rw [if_pos h25]
    unfold singleStep
    simp
  rw [if_neg h25] 
  by_cases h26 : peekCh src st = '\x7d'
  · rw [if_pos h26]
    unfold singleStep
    simp
  rw [if_neg h26] 
  by_cases h27 : peekCh src st = '['
  · rw [if_pos h27]
    unfold singleStep
    simp
  rw [if_neg h27] 
  by_cases h28 : peekCh src st = ']'
  · rw [if_pos h28]
    unfold singleStep
    simp
  rw [if_neg h28] 
  simp

/-- A successful `tokenizeAux` run ends exactly at the end of the buffer
and only appends well-formed tokens to the accumulator. -/
theorem tokenizeAux_facts :
    ∀ (fuel : Nat) (src : List Char) (st : LexSt) (acc ts : List Token) (stF : LexSt),
      st.offset ≤ src.length → 1 ≤ st.line →
      tokenizeAux fuel src st acc = .ok (ts, stF) →
      stF.offset = src.length ∧ ∀ t ∈ ts, t ∈ acc ∨ tokenWF t := by
  intro fuel
  induction fuel with
  | zero =>
    intro src st acc ts stF hb hl h
    unfold tokenizeAux at h
    split at h
    · exact Except.noConfusion h
    · rename_i hg
      simp only [Except.ok.injEq, Prod.mk.injEq] at h
      obtain ⟨rfl, rfl⟩ := h
      exact ⟨by omega, fun t ht => Or.inl ht⟩
  | succ f ih =>
    intro src st acc ts stF hb hl h
    unfold tokenizeAux at h
    split at h
    · rename_i hg
      cases hs : lexStep f src st with
      | error e => rw [hs] at h; exact Except.noConfusion h
      | ok p =>
        obtain ⟨ts1, st3⟩ := p
        rw [hs] at h
        dsimp only at h
        obtain ⟨w1, w2, w3, w4⟩ := lexStep_main f src st ts1 st3 hg hl hs
        obtain ⟨ih1, ih2⟩ := ih src st3 (acc ++ ts1) ts stF (by omega) w2 h
        refine ⟨ih1, fun t ht => ?_⟩
        rcases ih2 t ht with hm | hwf
        · rcases List.mem_append.mp hm with hm2 | hm2
          · exact Or.inl hm2
          · exact Or.inr (w1 t hm2)
        · exact Or.inr hwf
    · rename_i hg
      simp only [Except.ok.injEq, Prod.mk.injEq] at h
      obtain ⟨rfl, rfl⟩ := h
      exact ⟨by omega, fun t ht => Or.inl ht⟩

/-- With fuel exceeding the remaining length, the tokenize loop never
exhausts its fuel: its C++ counterpart terminates within `length` steps. -/
theorem tokenizeAux_no_fuelOut :
    ∀ (fuel : Nat) (src : List Char) (st : LexSt) (acc : List Token),
      st.offset ≤ src.length → 1 ≤ st.line → src.length - st.offset < fuel →
      tokenizeAux fuel src st acc ≠ .error .fuelOut := by
  intro fuel
  induction fuel with
  | zero =>
    intro src st acc hb hl hfu
    omega
  | succ f ih =>
    intro src st acc hb hl hfu
    unfold tokenizeAux
    split
    · rename_i hg
      cases hs : lexStep f src st with
      | error e =>
        dsimp only
        intro hc
        injection hc with he
        rw [he] at hs
        exact lexStep_no_fuelOut f src st (by omega) hs
      | ok p =>
        obtain ⟨ts1, st3⟩ := p
        dsimp only
        obtain ⟨w1, w2, w3, w4⟩ := lexStep_main f src st ts1 st3 hg hl hs
        exact ih src st3 (acc ++ ts1) (by omega) w2 (by omega)
    · simp

/-- Every token returned by `Lexer::tokenize` is well-formed, and the
final scanning state sits exactly at the end of the buffer. -/
theorem tokenize_ok_facts (source : String) (ts : List Token) (stF : LexSt)
    (h : tokenize source = .ok (ts, stF)) :
    stF.offset = source.data.length ∧ ∀ t ∈ ts, tokenWF t := by
  obtain ⟨h1, h2⟩ := tokenizeAux_facts (source.data.length + 1) source.data
    ⟨0, 1, 0⟩ [] ts stF (by dsimp only; omega) (by dsimp only; omega) h
  refine ⟨h1, fun t ht => ?_⟩
  rcases h2 t ht with hm | hwf
  · exact absurd hm (List.not_mem_nil t)
  · exact hwf

/-- Fact: `Lexer::tokenize` never runs out of the fuel the embedding gives it:
the scanning loop terminates. -/
theorem tokenize_no_fuelOut (source : String) :
    tokenize source ≠ .error .fuelOut :=
  tokenizeAux_no_fuelOut (source.data.length + 1) source.data ⟨0, 1, 0⟩ []
    (by dsimp only; omega) (by dsimp only; omega) (by dsimp only; omega)

/-- A string-body scan over a remainder that holds no closing quote runs to
the end of the buffer, and the line it reaches is the starting line plus
the number of newlines consumed. -/
theorem takeStr_noquote :
    ∀ (fuel : Nat) (src : List Char) (st : LexSt),
      st.offset ≤ src.length →
      '"' ∉ src.drop st.offset →
      src.length - st.offset ≤ fuel →
      ∃ cs st2, scanWhile strCond fuel src st = .ok (cs, st2) ∧
        st2.offset = src.length ∧
        st2.line = st.line + (src.drop st.offset).count '\n' := by
  intro fuel
  induction fuel with
  | zero =>
    intro src st hb hnq hfu
    have hoe : st.offset = src.length := by omega
    refine ⟨[], st, ?_, hoe, ?_⟩
    · unfold scanWhile
      rw [if_neg]
      unfold strCond
      simp [hoe]
    · rw [List.drop_eq_nil_of_le (by omega)]
      simp
  | succ f ih =>
    intro src st hb hnq hfu
    by_cases hoe : st.offset < src.length
    · have hdrop : src.drop st.offset = src[st.offset] :: src.drop (st.offset + 1) :=
        List.drop_eq_getElem_cons hoe
      rw [hdrop] at hnq
      simp only [List.mem_cons, not_or] at hnq
      obtain ⟨hne, hnq2⟩ := hnq
      have hpk : peekCh src st = src[st.offset] := by
        unfold peekCh
        exact List.getD_eq_getElem src nulChar hoe
      have hg : strCond src st = true := by
        unfold strCond
        simp only [Bool.and_eq_true, decide_eq_true_eq, Bool.not_eq_true', beq_eq_false_iff_ne]
        exact ⟨hoe, by rw [hpk]; exact fun hc => hne hc.symm⟩
      have hadvo := lexAdvance_offset src st
      obtain ⟨cs, st2, hrec, h1, h2⟩ := ih src (lexAdvance src st).2
        (by omega) (by rw [hadvo]; exact hnq2) (by omega)
      refine ⟨(lexAdvance src st).1 :: cs, st2, ?_, h1, ?_⟩
      · unfold scanWhile
        rw [if_pos hg, hrec]
      · rw [h2, hdrop, hadvo]
        rw [List.count_cons]
        by_cases hc : src.getD st.offset nulChar = '\n'
        · have hl2 : (lexAdvance src st).2.line = st.line + 1 := by
            unfold lexAdvance
            rw [if_pos hc]
          have hcc : src[st.offset] = '\n' := by
            rw [← List.getD_eq_getElem src nulChar hoe]
            exact hc
          rw [hl2, hcc]
          simp
          omega
        · have hl2 : (lexAdvance src st).2.line = st.line := by
            unfold lexAdvance
            rw [if_neg hc]
          have hcc : src[st.offset] ≠ '\n' := by
            rw [← List.getD_eq_getElem src nulChar hoe]
            exact hc
          rw [hl2]
          simp [hcc]
    · have hoe2 : st.offset = src.length := by omega
      refine ⟨[], st, ?_, hoe2, ?_⟩
      · unfold scanWhile
        rw [if_neg]
        unfold strCond
        simp [hoe2]
      · rw [List.drop_eq_nil_of_le (by omega)]
        simp

/-- C5 amended: an opened string literal with no closing quote in the rest
of the input makes `lexing_string` fail with the line reached at the end of
the input, which is the line the literal began on plus the number of
newlines inside the unterminated literal. -/
theorem C5_amended (fuel : Nat) (src : List Char) (st : LexSt)
    (hlt : st.offset < src.length)
    (hq : peekCh src st = '"')
    (hnq : '"' ∉ src.drop (st.offset + 1))
    (hfu : src.length - st.offset ≤ fuel) :
    lexing_string fuel src st =
      .error (.unterminatedString
        (st.line + (src.drop (st.offset + 1)).count '\n')) := by
  unfold lexing_string takeStrChars
  have hadv : (lexAdvance src st).2 = ⟨st.offset + 1, st.line, st.col + 1⟩ :=
    lexAdvance_not_nl src st (by rw [hq]; decide)
  rw [hadv]
  obtain ⟨cs, st2, hrec, h1, h2⟩ := takeStr_noquote fuel src
    ⟨st.offset + 1, st.line, st.col + 1⟩
    (by dsimp only; omega) (by dsimp only; exact hnq) (by dsimp only; omega)
  rw [hrec]
  dsimp only
  rw [if_pos (by omega)]
  rw [h2]

/-- C5 counterexample: the unterminated string source consisting of a
quote, the letter a, a newline and the letter b begins its literal on
line 1, yet the fatal error reports line 2 (the line at end of input). -/
theorem C5_counterexample :
    tokenize (String.mk ['"', 'a', '\n', 'b']) = .error (.unterminatedString 2) ∧
      (2 : Nat) ≠ 1 := ⟨rfl, by decide⟩

/-- C5 witness: instantiating the amended claim on that same four-character
buffer yields the reported line 2 = 1 + one newline. -/
theorem C5_witness :
    lexing_string 4 ['"', 'a', '\n', 'b'] ⟨0, 1, 0⟩ =
      .error (.unterminatedString 2) :=
  C5_amended 4 ['"', 'a', '\n', 'b'] ⟨0, 1, 0⟩ (by decide) (by decide)
    (by decide) (by decide)

/-- C7 counterexample: lexing the five-character source consisting of a
quoted literal that contains a newline produces a single STRING token whose
`start_column` is `-1`, refuting the claim that both columns are
non-negative for every token. -/
theorem C7_counterexample :
    tokenize (String.mk ['"', 'a', '\n', 'b', '"']) =
      .ok ([⟨.STRING, String.mk ['a', '\n', 'b'], ⟨2, -1, 2⟩⟩], ⟨5, 2, 2⟩) ∧
      (-1 : Int) < 0 := ⟨rfl, by decide⟩

/-- C7 amended: every emitted token satisfies `start_column ≤ end_column`,
`line ≥ 1` and `end_column - start_column = lexeme length`, and
`start_column` is non-negative for every non-string token; a string literal
spanning a newline may have a negative `start_column`. -/
theorem C7_amended (source : String) (ts : List Token) (stF : LexSt)
    (h : tokenize source = .ok (ts, stF)) :
    ∀ t ∈ ts, t.loc.start_column ≤ t.loc.end_column ∧ 1 ≤ t.loc.line ∧
      t.loc.end_column - t.loc.start_column = (t.lexeme.length : Int) ∧
      (t.type ≠ .STRING → 0 ≤ t.loc.start_column) := by
  intro t ht
  obtain ⟨w1, w2, w3, w4, w5, w6⟩ := (tokenize_ok_facts source ts stF h).2 t ht
  exact ⟨w2, w3, w1, w5⟩

/-- C7 witness: the span facts instantiated on the one token of the
source consisting of the single letter x. -/
theorem C7_witness :
    (Token.mk .IDENTIFIER "x" ⟨1, 0, 1⟩).loc.start_column ≤
        (Token.mk .IDENTIFIER "x" ⟨1, 0, 1⟩).loc.end_column ∧
      1 ≤ (Token.mk .IDENTIFIER "x" ⟨1, 0, 1⟩).loc.line ∧
      (Token.mk .IDENTIFIER "x" ⟨1, 0, 1⟩).loc.end_column -
          (Token.mk .IDENTIFIER "x" ⟨1, 0, 1⟩).loc.start_column =
        ((Token.mk .IDENTIFIER "x" ⟨1, 0, 1⟩).lexeme.length : Int) ∧
      ((Token.mk .IDENTIFIER "x" ⟨1, 0, 1⟩).type ≠ .STRING →
        0 ≤ (Token.mk .IDENTIFIER "x" ⟨1, 0, 1⟩).loc.start_column) :=
  C7_amended "x" [⟨.IDENTIFIER, "x", ⟨1, 0, 1⟩⟩] ⟨1, 1, 1⟩ rfl
    ⟨.IDENTIFIER, "x", ⟨1, 0, 1⟩⟩ (List.mem_singleton.mpr rfl)

/-- C8: tokenize never exhausts the fuel of the embedding (the C++ loop
terminates), a successful run returns exactly at the end of the buffer, and
every loop iteration strictly advances the offset — the buffer is consumed
left to right with no re-reads. -/
theorem C8_main (source : String) :
    tokenize source ≠ .error .fuelOut ∧
    (∀ ts stF, tokenize source = .ok (ts, stF) →
      stF.offset = source.data.length) ∧
    (∀ fuel st ts st2, st.offset < source.data.length → 1 ≤ st.line →
      lexStep fuel source.data st = .ok (ts, st2) → st.offset < st2.offset) :=
  ⟨tokenize_no_fuelOut source,
   fun ts stF h => (tokenize_ok_facts source ts stF h).1,
   fun fuel st ts st2 hlt hline h =>
     (lexStep_main fuel source.data st ts st2 hlt hline h).2.2.1⟩

/-- C8 witness: on the three-character source 1+2, the final offset is 3 and
the first iteration advances the offset from 0 to 1. -/
theorem C8_witness :
    (⟨3, 1, 3⟩ : LexSt).offset = "1+2".data.length ∧
      (⟨0, 1, 0⟩ : LexSt).offset < (⟨1, 1, 1⟩ : LexSt).offset :=
  ⟨(C8_main "1+2").2.1
      [⟨.NUMBER, "1", ⟨1, 0, 1⟩⟩, ⟨.PLUS, "+", ⟨1, 1, 2⟩⟩, ⟨.NUMBER, "2", ⟨1, 2, 3⟩⟩]
      ⟨3, 1, 3⟩ rfl,
   (C8_main "1+2").2.2 4 ⟨0, 1, 0⟩ [⟨.NUMBER, "1", ⟨1, 0, 1⟩⟩] ⟨1, 1, 1⟩
      (by decide) (by decide) rfl⟩

/-- C10: the lexer never emits an `END_OF_FILE` token, so the parser's
`isAtEnd` on a lexed sequence is true exactly when the cursor has reached
the sequence length. -/
theorem C10_main (source : String) (ts : List Token) (stF : LexSt)
    (h : tokenize source = .ok (ts, stF)) :
    (∀ t ∈ ts, t.type ≠ .END_OF_FILE) ∧
    (∀ pos, isAtEndP ts pos = decide (ts.length ≤ pos)) := by
  have hwf := (tokenize_ok_facts source ts stF h).2
  refine ⟨fun t ht => (hwf t ht).2.2.2.1, fun pos => ?_⟩
  unfold isAtEndP
  by_cases hp : ts.length ≤ pos
  · rw [List.get?_eq_none.mpr hp]
    simp [hp]
  · push_neg at hp
    rw [List.get?_eq_get hp]
    have hne := (hwf _ (List.getElem_mem hp)).2.2.2.1
    simp [Nat.not_le.mpr hp, hne]

/-- C10 witness: instantiated on the one-token sequence lexed from the
single letter x. -/
theorem C10_witness :
    (Token.mk .IDENTIFIER "x" ⟨1, 0, 1⟩).type ≠ .END_OF_FILE ∧
      isAtEndP [⟨.IDENTIFIER, "x", ⟨1, 0, 1⟩⟩] 1 = decide ((1 : Nat) ≤ 1) :=
  ⟨(C10_main "x" [⟨.IDENTIFIER, "x", ⟨1, 0, 1⟩⟩] ⟨1, 1, 1⟩ rfl).1
      ⟨.IDENTIFIER, "x", ⟨1, 0, 1⟩⟩ (List.mem_singleton.mpr rfl),
   (C10_main "x" [⟨.IDENTIFIER, "x", ⟨1, 0, 1⟩⟩] ⟨1, 1, 1⟩ rfl).2 1⟩

/-- C1: lexing the source x = 1 + 2 * 3 does yield the seven expected
tokens, with the assignment token carrying kind `EQUAL`; but parsing that
sequence yields only `Identifier(x)`, not the claimed nested `BinaryOp`
tree: `getPrecedence EQUAL` is 0 (the parser's assignment machinery is
keyed to the kind `ASSIGN`, which the lexer never emits), so the infix
loop stops before `=` and the next statement attempt throws at `=`. -/
theorem C1_eval :
    tokenize "x = 1 + 2 * 3" =
      .ok ([⟨.IDENTIFIER, "x", ⟨1, 0, 1⟩⟩, ⟨.EQUAL, "=", ⟨1, 2, 3⟩⟩,
            ⟨.NUMBER, "1", ⟨1, 4, 5⟩⟩, ⟨.PLUS, "+", ⟨1, 6, 7⟩⟩,
            ⟨.NUMBER, "2", ⟨1, 8, 9⟩⟩, ⟨.STAR, "*", ⟨1, 10, 11⟩⟩,
            ⟨.NUMBER, "3", ⟨1, 12, 13⟩⟩], ⟨13, 1, 13⟩) ∧
    parse [⟨.IDENTIFIER, "x", ⟨1, 0, 1⟩⟩, ⟨.EQUAL, "=", ⟨1, 2, 3⟩⟩,
           ⟨.NUMBER, "1", ⟨1, 4, 5⟩⟩, ⟨.PLUS, "+", ⟨1, 6, 7⟩⟩,
           ⟨.NUMBER, "2", ⟨1, 8, 9⟩⟩, ⟨.STAR, "*", ⟨1, 10, 11⟩⟩,
           ⟨.NUMBER, "3", ⟨1, 12, 13⟩⟩] =
      .ok [.ident "x" ⟨1, 0, 1⟩] ∧
    getPrecedence .EQUAL = 0 :=
  ⟨rfl, rfl, rfl⟩

/-- C2: the token sequence the lexer produces for a = b = 1 carries kind
`EQUAL` for both assignments; parsing it yields only `Identifier(a)` and
aborts (kind `EQUAL` has precedence 0 and no `led`/`nud` rule).  The
parser's right-associative grouping does hold, but only for the kind
`ASSIGN`, which the lexer never produces: parsing the same shape with
`ASSIGN` tokens yields the right-nested tree. -/
theorem C2_eval :
    tokenize "a = b = 1" =
      .ok ([⟨.IDENTIFIER, "a", ⟨1, 0, 1⟩⟩, ⟨.EQUAL, "=", ⟨1, 2, 3⟩⟩,
            ⟨.IDENTIFIER, "b", ⟨1, 4, 5⟩⟩, ⟨.EQUAL, "=", ⟨1, 6, 7⟩⟩,
            ⟨.NUMBER, "1", ⟨1, 8, 9⟩⟩], ⟨9, 1, 9⟩) ∧
    parse [⟨.IDENTIFIER, "a", ⟨1, 0, 1⟩⟩, ⟨.EQUAL, "=", ⟨1, 2, 3⟩⟩,
           ⟨.IDENTIFIER, "b", ⟨1, 4, 5⟩⟩, ⟨.EQUAL, "=", ⟨1, 6, 7⟩⟩,
           ⟨.NUMBER, "1", ⟨1, 8, 9⟩⟩] =
      .ok [.ident "a" ⟨1, 0, 1⟩] ∧
    parse [⟨.IDENTIFIER, "a", ⟨1, 0, 0⟩⟩, ⟨.ASSIGN, "=", ⟨1, 0, 0⟩⟩,
           ⟨.IDENTIFIER, "b", ⟨1, 0, 0⟩⟩, ⟨.ASSIGN, "=", ⟨1, 0, 0⟩⟩,
           ⟨.NUMBER, "1", ⟨1, 0, 0⟩⟩] =
      .ok [.binaryOp "=" (.ident "a" ⟨1, 0, 0⟩)
            (some (.binaryOp "=" (.ident "b" ⟨1, 0, 0⟩)
              (some (.num 1 ⟨1, 0, 0⟩)) ⟨1, 0, 0⟩)) ⟨1, 0, 0⟩] :=
  ⟨rfl, rfl, rfl⟩

theorem ledBin_shape (fuel : Nat) (tokens : List Token) (left : Ast) (loc : Loc)
    (op : String) (bp : Int) (pos : Nat) (a : Ast) (pos2 : Nat)
    (h : ledBin fuel tokens left loc op bp pos = .ok (a, pos2)) :
    ∃ right, a = .binaryOp op left right loc := by
  cases fuel with
  | zero => unfold ledBin at h; exact Except.noConfusion h
  | succ f =>
    unfold ledBin at h
    cases hr : expressionP f tokens bp pos with
    | error e => rw [hr] at h; exact Except.noConfusion h
    | ok p =>
      obtain ⟨right, p2⟩ := p
      rw [hr] at h
      dsimp only at h
      simp only [Except.ok.injEq, Prod.mk.injEq] at h
      obtain ⟨rfl, rfl⟩ := h
      exact ⟨right, rfl⟩

set_option maxHeartbeats 2000000 in
/-- A successful `led` always returns a `BinaryOp` whose operator string is
the fixed text `ledOpOf` associates with the consumed token's kind, whose
left child is the given left operand, and whose span is the token's. -/
theorem ledP_shape (fuel : Nat) (tokens : List Token) (left : Ast) (t : Token)
    (pos : Nat) (a : Ast) (pos2 : Nat)
    (h : ledP fuel tokens left t pos = .ok (a, pos2)) :
    ∃ op right, ledOpOf t.type = some op ∧ a = .binaryOp op left right t.loc := by
  cases fuel with
  | zero => unfold ledP at h; exact Except.noConfusion h
  | succ f =>
    unfold ledP at h
    cases ht : t.type <;> rw [ht] at h <;> dsimp only at h <;>
      first
        | exact Except.noConfusion h
        | (obtain ⟨right, rfl⟩ := ledBin_shape _ _ _ _ _ _ _ _ _ h
           exact ⟨_, right, rfl, rfl⟩)

/-- For every token kind other than `AND` and `OR`, the operator string
`led` writes agrees with the lexeme the lexer attaches to that kind. -/
theorem ledOp_agrees (ty : TokenType) (hne1 : ty ≠ .AND) (hne2 : ty ≠ .OR) :
    ∀ s, opLexeme ty = some s → ledOpOf ty = some s := by
  cases ty <;>
    first
      | exact absurd rfl hne1
      | exact absurd rfl hne2
      | exact fun s hs => hs
      | exact fun s hs => Option.noConfusion hs

/-- C3 counterexample: the token lexed from && has lexeme `&&`, yet the
`BinaryOp` built when it is consumed in infix position carries the
operator string `and`. -/
theorem C3_counterexample :
    tokenize "a && b" =
      .ok ([⟨.IDENTIFIER, "a", ⟨1, 0, 1⟩⟩, ⟨.AND, "&&", ⟨1, 2, 4⟩⟩,
            ⟨.IDENTIFIER, "b", ⟨1, 5, 6⟩⟩], ⟨6, 1, 6⟩) ∧
    parse [⟨.IDENTIFIER, "a", ⟨1, 0, 1⟩⟩, ⟨.AND, "&&", ⟨1, 2, 4⟩⟩,
           ⟨.IDENTIFIER, "b", ⟨1, 5, 6⟩⟩] =
      .ok [.binaryOp "and" (.ident "a" ⟨1, 0, 1⟩)
            (some (.ident "b" ⟨1, 5, 6⟩)) ⟨1, 2, 4⟩] ∧
    "and" ≠ "&&" :=
  ⟨rfl, rfl, by decide⟩

/-- C3 amended: when `led` consumes an infix-capable token produced by the
lexer, the resulting `BinaryOp` carries the consumed token's literal text,
except for the tokens lexed from && and ||, which produce the operator
strings and and or respectively. -/
theorem C3_amended (source : String) (ts : List Token) (stF : LexSt)
    (t : Token) (fuel : Nat) (left : Ast) (pos : Nat) (a : Ast) (pos2 : Nat)
    (hlex : tokenize source = .ok (ts, stF)) (hmem : t ∈ ts)
    (hprec : 0 < getPrecedence t.type)
    (h : ledP fuel ts left t pos = .ok (a, pos2)) :
    ∃ right,
      (t.type = .AND → a = .binaryOp "and" left right t.loc ∧ t.lexeme = "&&") ∧
      (t.type = .OR → a = .binaryOp "or" left right t.loc ∧ t.lexeme = "||") ∧
      (t.type ≠ .AND → t.type ≠ .OR → a = .binaryOp t.lexeme left right t.loc) := by
  have hop := ((tokenize_ok_facts source ts stF hlex).2 t hmem).2.2.2.2.2 hprec
  obtain ⟨op, right, hled, rfl⟩ := ledP_shape fuel ts left t pos a pos2 h
  refine ⟨right, fun h1 => ?_, fun h1 => ?_, fun h1 h2 => ?_⟩
  · rw [h1] at hled hop
    injection hled with hled2
    injection hop with hop2
    subst hled2
    exact ⟨rfl, hop2.symm⟩
  · rw [h1] at hled hop
    injection hled with hled2
    injection hop with hop2
    subst hled2
    exact ⟨rfl, hop2.symm⟩
  · have hag := ledOp_agrees t.type h1 h2 t.lexeme hop
    rw [hag] at hled
    injection hled with hled2
    rw [← hled2]

/-- C3 witness: the amended claim instantiated on the && token of the
source a && b, whose `led` result is a `BinaryOp` with operator and. -/
theorem C3_witness :
    ∃ right,
      ((Token.mk .AND "&&" ⟨1, 2, 4⟩).type = .AND →
        Ast.binaryOp "and" (.ident "a" ⟨1, 0, 1⟩)
            (some (.ident "b" ⟨1, 5, 6⟩)) ⟨1, 2, 4⟩ =
          .binaryOp "and" (.ident "a" ⟨1, 0, 1⟩) right
            (Token.mk .AND "&&" ⟨1, 2, 4⟩).loc ∧
        (Token.mk .AND "&&" ⟨1, 2, 4⟩).lexeme = "&&") ∧
      ((Token.mk .AND "&&" ⟨1, 2, 4⟩).type = .OR →
        Ast.binaryOp "and" (.ident "a" ⟨1, 0, 1⟩)
            (some (.ident "b" ⟨1, 5, 6⟩)) ⟨1, 2, 4⟩ =
          .binaryOp "or" (.ident "a" ⟨1, 0, 1⟩) right
            (Token.mk .AND "&&" ⟨1, 2, 4⟩).loc ∧
        (Token.mk .AND "&&" ⟨1, 2, 4⟩).lexeme = "||") ∧
      ((Token.mk .AND "&&" ⟨1, 2, 4⟩).type ≠ .AND →
        (Token.mk .AND "&&" ⟨1, 2, 4⟩).type ≠ .OR →
        Ast.binaryOp "and" (.ident "a" ⟨1, 0, 1⟩)
            (some (.ident "b" ⟨1, 5, 6⟩)) ⟨1, 2, 4⟩ =
          .binaryOp (Token.mk .AND "&&" ⟨1, 2, 4⟩).lexeme
            (.ident "a" ⟨1, 0, 1⟩) right (Token.mk .AND "&&" ⟨1, 2, 4⟩).loc) :=
  C3_amended "a && b"
    [⟨.IDENTIFIER, "a", ⟨1, 0, 1⟩⟩, ⟨.AND, "&&", ⟨1, 2, 4⟩⟩,
     ⟨.IDENTIFIER, "b", ⟨1, 5, 6⟩⟩] ⟨6, 1, 6⟩
    ⟨.AND, "&&", ⟨1, 2, 4⟩⟩ 5 (.ident "a" ⟨1, 0, 1⟩) 2
    (.binaryOp "and" (.ident "a" ⟨1, 0, 1⟩)
      (some (.ident "b" ⟨1, 5, 6⟩)) ⟨1, 2, 4⟩) 3
    rfl (by decide) (by decide) rfl

theorem peekP_ok_lt (tokens : List Token) (pos : Nat) (t : Token)
    (h : peekP tokens pos = .ok t) : pos < tokens.length := by
  unfold peekP at h
  cases hg : tokens.get? pos with
  | some t2 => exact (List.get?_eq_some.mp hg).1
  | none => rw [hg] at h; exact Except.noConfusion h

theorem peekP_err (tokens : List Token) (pos : Nat) (e : PErr)
    (h : peekP tokens pos = .error e) :
    e = .oobRead (pos : Int) ∧ tokens.length ≤ pos := by
  unfold peekP at h
  cases hg : tokens.get? pos with
  | some t2 => rw [hg] at h; exact Except.noConfusion h
  | none =>
    rw [hg] at h
    injection h with h2
    exact ⟨h2.symm, List.get?_eq_none.mp hg⟩

theorem advanceP_ok (tokens : List Token) (pos : Nat) (t : Token) (pos1 : Nat)
    (h : advanceP tokens pos = .ok (t, pos1)) :
    pos1 = pos + 1 ∧ pos < tokens.length := by
  unfold advanceP at h
  cases hp : peekP tokens pos with
  | error e => rw [hp] at h; exact Except.noConfusion h
  | ok t2 =>
    rw [hp] at h
    dsimp only at h
    simp only [Except.ok.injEq, Prod.mk.injEq] at h
    exact ⟨h.2.symm, peekP_ok_lt tokens pos t2 hp⟩

theorem advanceP_err (tokens : List Token) (pos : Nat) (e : PErr)
    (h : advanceP tokens pos = .error e) :
    e = .oobRead (pos : Int) ∧ tokens.length ≤ pos := by
  unfold advanceP at h
  cases hp : peekP tokens pos with
  | error e2 =>
    rw [hp] at h
    dsimp only at h
    injection h with h2
    obtain ⟨he2, hlen⟩ := peekP_err tokens pos e2 hp
    rw [← h2]
    exact ⟨he2, hlen⟩
  | ok t2 => rw [hp] at h; exact Except.noConfusion h

theorem consumeP_ok (tokens : List Token) (pos : Nat) (ty : TokenType)
    (msg : String) (tk : Token) (pos2 : Nat)
    (h : consumeP tokens pos ty msg = .ok (tk, pos2)) :
    pos2 = pos + 1 ∧ pos < tokens.length := by
  unfold consumeP at h
  cases hp : peekP tokens pos with
  | error e => rw [hp] at h; exact Except.noConfusion h
  | ok cur =>
    rw [hp] at h
    dsimp only at h
    split at h
    · split at h
      · exact Except.noConfusion h
      · cases hg : tokens.get? (((pos : Int) + 1) - 2).toNat with
        | some tk2 =>
          rw [hg] at h
          simp only [Except.ok.injEq, Prod.mk.injEq] at h
          exact ⟨h.2.symm, peekP_ok_lt tokens pos cur hp⟩
        | none => rw [hg] at h; exact Except.noConfusion h
    · exact Except.noConfusion h

theorem consumeP_err (tokens : List Token) (pos : Nat) (ty : TokenType)
    (msg : String) (e : PErr) (hp : 1 ≤ pos) (hb : pos ≤ tokens.length)
    (h : consumeP tokens pos ty msg = .error e) :
    ∀ i, e = .oobRead i → i = (tokens.length : Int) := by
  intro i hei
  subst hei
  unfold consumeP at h
  cases hpk : peekP tokens pos with
  | error e2 =>
    rw [hpk] at h
    dsimp only at h
    injection h with h2
    obtain ⟨he2, hlen⟩ := peekP_err tokens pos e2 hpk
    rw [he2] at h2
    injection h2 with h3
    omega
  | ok cur =>
    rw [hpk] at h
    have hlt := peekP_ok_lt tokens pos cur hpk
    dsimp only at h
    split at h
    · split at h
      · rename_i hneg
        omega
      · cases hg : tokens.get? (((pos : Int) + 1) - 2).toNat with
        | some tk2 => rw [hg] at h; exact Except.noConfusion h
        | none =>
          have := List.get?_eq_none.mp hg
          omega
    · injection h with h2
      exact PErr.noConfusion h2

theorem boundedRes_err {α : Type} (tokens : List Token) (e : PErr)
    (he : ∀ i, e = .oobRead i → i = (tokens.length : Int)) :
    boundedRes (α := α) tokens (.error e) :=
  ⟨fun i h => he i (by injection h), fun a pos2 h => Except.noConfusion h⟩

theorem boundedRes_ok {α : Type} (tokens : List Token) (a : α) (pos2 : Nat)
    (h : pos2 ≤ tokens.length) : boundedRes tokens (.ok (a, pos2)) :=
  ⟨fun i hh => Except.noConfusion hh,
   fun a2 p2 hh => by cases hh; exact h⟩

theorem boundedRes_err_cast {α β : Type} (tokens : List Token) (e : PErr)
    (h : boundedRes (α := α) tokens (.error e)) :
    boundedRes (α := β) tokens (.error e) :=
  boundedRes_err tokens e (fun i hi => h.1 i (by rw [hi]))

set_option maxHeartbeats 4000000 in
/-- Combined in-bounds invariant of every parser routine: starting within
bounds (and past at least one consumed token for the declaration
sub-rule), any reported out-of-bounds read is at exactly the sequence
length — one past the last token — and a normal return keeps the cursor
within bounds. -/
theorem parser_bounds : ∀ fuel : Nat,
    (∀ tokens rbp pos, pos ≤ List.length tokens →
      boundedRes tokens (expressionP fuel tokens rbp pos)) ∧
    (∀ tokens rbp left pos, pos ≤ List.length tokens →
      boundedRes tokens (ledLoop fuel tokens rbp left pos)) ∧
    (∀ tokens t pos, 1 ≤ pos → pos ≤ List.length tokens →
      boundedRes tokens (nudP fuel tokens t pos)) ∧
    (∀ tokens left loc op bp pos, pos ≤ List.length tokens →
      boundedRes tokens (ledBin fuel tokens left loc op bp pos)) ∧
    (∀ tokens left t pos, pos ≤ List.length tokens →
      boundedRes tokens (ledP fuel tokens left t pos)) ∧
    (∀ tokens pos, 1 ≤ pos → pos ≤ List.length tokens →
      boundedRes tokens (parse_new_declP fuel tokens pos)) ∧
    (∀ tokens nt mu pos, 1 ≤ pos → pos ≤ List.length tokens →
      boundedRes tokens (newDeclRest fuel tokens nt mu pos)) := by
  intro fuel
  induction fuel with
  | zero =>
    refine ⟨fun tokens rbp pos hb => ?_,
            fun tokens rbp left pos hb => ?_,
            fun tokens t pos hp hb => ?_,
            fun tokens left loc op bp pos hb => ?_,
            fun tokens left t pos hb => ?_,
            fun tokens pos hp hb => ?_,
            fun tokens nt mu pos hp hb => ?_⟩ <;>
      exact boundedRes_err _ .fuelOut (fun i hi => PErr.noConfusion hi)
  | succ f ih =>
    obtain ⟨ihE, ihL, ihN, ihB, ihP, ihD, ihR⟩ := ih
    refine ⟨?_, ?_, ?_, ?_, ?_, ?_, ?_⟩
    · -- expressionP
      intro tokens rbp pos hb
      unfold expressionP
      cases hA : advanceP tokens pos with
      | error e =>
        obtain ⟨he, hlen⟩ := advanceP_err tokens pos e hA
        try dsimp only
        exact boundedRes_err tokens e
          (fun i hi => by rw [he] at hi; injection hi with h3; omega)
      | ok p =>
        obtain ⟨t, pos1⟩ := p
        obtain ⟨hpos1, hlt⟩ := advanceP_ok tokens pos t pos1 hA
        try dsimp only
        cases hN : nudP f tokens t pos1 with
        | error e =>
          have hbr := ihN tokens t pos1 (by omega) (by omega)
          rw [hN] at hbr
          try dsimp only
          exact boundedRes_err_cast tokens e hbr
        | ok p2 =>
          obtain ⟨leftOpt, pos2⟩ := p2
          have hbr := ihN tokens t pos1 (by omega) (by omega)
          rw [hN] at hbr
          have hpos2 := hbr.2 leftOpt pos2 rfl
          try dsimp only
          cases leftOpt with
          | none => exact boundedRes_ok tokens none pos2 hpos2
          | some left => exact ihL tokens rbp left pos2 hpos2
    · -- ledLoop
      intro tokens rbp left pos hb
      unfold ledLoop
      split
      · exact boundedRes_ok tokens (some left) pos hb
      · cases hP : peekP tokens pos with
        | error e =>
          obtain ⟨he, hlen⟩ := peekP_err tokens pos e hP
          try dsimp only
          exact boundedRes_err tokens e
            (fun i hi => by rw [he] at hi; injection hi with h3; omega)
        | ok cur =>
          try dsimp only
          split
          · cases hA : advanceP tokens pos with
            | error e =>
              obtain ⟨he, hlen⟩ := advanceP_err tokens pos e hA
              try dsimp only
              exact boundedRes_err tokens e
                (fun i hi => by rw [he] at hi; injection hi with h3; omega)
            | ok p =>
              obtain ⟨opTok, pos1⟩ := p
              obtain ⟨hpos1, hlt⟩ := advanceP_ok tokens pos opTok pos1 hA
              try dsimp only
              cases hLed : ledP f tokens left opTok pos1 with
              | error e =>
                have hbr := ihP tokens left opTok pos1 (by omega)
                rw [hLed] at hbr
                try dsimp only
                exact boundedRes_err_cast tokens e hbr
              | ok p2 =>
                obtain ⟨right, pos2⟩ := p2
                have hbr := ihP tokens left opTok pos1 (by omega)
                rw [hLed] at hbr
                have hpos2 := hbr.2 right pos2 rfl
                try dsimp only
                exact ihL tokens rbp right pos2 hpos2
          · exact boundedRes_ok tokens (some left) pos hb
    · -- nudP
      intro tokens t pos hp hb
      unfold nudP
      cases ht : t.type <;> dsimp only <;>
        first
          | exact boundedRes_ok tokens _ pos hb
          | exact boundedRes_err tokens _ (fun i hi => PErr.noConfusion hi)
          | (cases hD : parse_new_declP f tokens pos with
             | error e =>
               have hbr := ihD tokens pos hp hb
               rw [hD] at hbr
               try dsimp only
               exact boundedRes_err_cast tokens e hbr
             | ok p =>
               obtain ⟨a, pos2⟩ := p
               have hbr := ihD tokens pos hp hb
               rw [hD] at hbr
               dsimp only
               exact boundedRes_ok tokens _ pos2 (hbr.2 a pos2 rfl))
    · -- ledBin
      intro tokens left loc op bp pos hb
      unfold ledBin
      cases hE : expressionP f tokens bp pos with
      | error e =>
        have hbr := ihE tokens bp pos hb
        rw [hE] at hbr
        try dsimp only
        exact boundedRes_err_cast tokens e hbr
      | ok p =>
        obtain ⟨right, pos2⟩ := p
        have hbr := ihE tokens bp pos hb
        rw [hE] at hbr
        try dsimp only
        exact boundedRes_ok tokens _ pos2 (hbr.2 right pos2 rfl)
    · -- ledP
      intro tokens left t pos hb
      unfold ledP
      cases ht : t.type <;> dsimp only <;>
        first
          | exact boundedRes_err tokens _ (fun i hi => PErr.noConfusion hi)
          | exact ihB tokens left t.loc _ _ pos hb
    · -- parse_new_declP
      intro tokens pos hp hb
      unfold parse_new_declP
      cases hP1 : peekP tokens pos with
      | error e =>
        obtain ⟨he, hlen⟩ := peekP_err tokens pos e hP1
        try dsimp only
        exact boundedRes_err tokens e
          (fun i hi => by rw [he] at hi; injection hi with h3; omega)
      | ok c0 =>
        try dsimp only
        cases hC1 : consumeP tokens pos .NEW "Expected 'new'" with
        | error e =>
          try dsimp only
          exact boundedRes_err tokens e
            (consumeP_err tokens pos .NEW "Expected 'new'" e hp hb hC1)
        | ok p =>
          obtain ⟨newToken, pos1⟩ := p
          obtain ⟨hpos1, hlt⟩ := consumeP_ok tokens pos .NEW "Expected 'new'"
            newToken pos1 hC1
          try dsimp only
          cases hP2 : peekP tokens pos1 with
          | error e =>
            obtain ⟨he, hlen⟩ := peekP_err tokens pos1 e hP2
            try dsimp only
            exact boundedRes_err tokens e
              (fun i hi => by rw [he] at hi; injection hi with h3; omega)
          | ok c1 =>
            try dsimp only
            split
            · cases hC2 : consumeP tokens pos1 .MUT "Expected 'mut'" with
              | error e =>
                try dsimp only
                exact boundedRes_err tokens e
                  (consumeP_err tokens pos1 .MUT "Expected 'mut'" e
                    (by omega) (by omega) hC2)
              | ok p2 =>
                obtain ⟨mt, pos2⟩ := p2
                obtain ⟨hpos2, hlt2⟩ := consumeP_ok tokens pos1 .MUT
                  "Expected 'mut'" mt pos2 hC2
                try dsimp only
                exact ihR tokens newToken true pos2 (by omega) (by omega)
            · exact ihR tokens newToken false pos1 (by omega) (by omega)
    · -- newDeclRest
      intro tokens nt mu pos hp hb
      unfold newDeclRest
      cases hP1 : peekP tokens pos with
      | error e =>
        obtain ⟨he, hlen⟩ := peekP_err tokens pos e hP1
        try dsimp only
        exact boundedRes_err tokens e
          (fun i hi => by rw [he] at hi; injection hi with h3; omega)
      | ok c0 =>
        try dsimp only
        cases hC1 : consumeP tokens pos .IDENTIFIER
            "Expected identifier for variable name" with
        | error e =>
          try dsimp only
          exact boundedRes_err tokens e
            (consumeP_err tokens pos .IDENTIFIER
              "Expected identifier for variable name" e hp hb hC1)
        | ok p =>
          obtain ⟨varName, pos1⟩ := p
          obtain ⟨hpos1, hlt⟩ := consumeP_ok tokens pos .IDENTIFIER
            "Expected identifier for variable name" varName pos1 hC1
          try dsimp only
          cases hP2 : peekP tokens pos1 with
          | error e =>
            obtain ⟨he, hlen⟩ := peekP_err tokens pos1 e hP2
            try dsimp only
            exact boundedRes_err tokens e
              (fun i hi => by rw [he] at hi; injection hi with h3; omega)
          | ok c1 =>
            try dsimp only
            cases hC2 : consumeP tokens pos1 .COLON
                "Expected ':' after variable name" with
            | error e =>
              try dsimp only
              exact boundedRes_err tokens e
                (consumeP_err tokens pos1 .COLON "Expected ':' after variable name"
                  e (by omega) (by omega) hC2)
            | ok p2 =>
              obtain ⟨ct, pos2⟩ := p2
              obtain ⟨hpos2, hlt2⟩ := consumeP_ok tokens pos1 .COLON
                "Expected ':' after variable name" ct pos2 hC2
              try dsimp only
              cases hP3 : peekP tokens pos2 with
              | error e =>
                obtain ⟨he, hlen⟩ := peekP_err tokens pos2 e hP3
                try dsimp only
                exact boundedRes_err tokens e
                  (fun i hi => by rw [he] at hi; injection hi with h3; omega)
              | ok c2 =>
                try dsimp only
                cases hC3 : consumeP tokens pos2 .IDENTIFIER
                    "Expected type after ':'" with
                | error e =>
                  try dsimp only
                  exact boundedRes_err tokens e
                    (consumeP_err tokens pos2 .IDENTIFIER "Expected type after ':'"
                      e (by omega) (by omega) hC3)
                | ok p3 =>
                  obtain ⟨tt, pos3⟩ := p3
                  obtain ⟨hpos3, hlt3⟩ := consumeP_ok tokens pos2 .IDENTIFIER
                    "Expected type after ':'" tt pos3 hC3
                  try dsimp only
                  cases hP4 : peekP tokens pos3 with
                  | error e =>
                    obtain ⟨he, hlen⟩ := peekP_err tokens pos3 e hP4
                    try dsimp only
                    exact boundedRes_err tokens e
                      (fun i hi => by rw [he] at hi; injection hi with h3; omega)
                  | ok c3 =>
                    try dsimp only
                    cases hC4 : consumeP tokens pos3 .EQUAL
                        "Expected '=' after type" with
                    | error e =>
                      try dsimp only
                      exact boundedRes_err tokens e
                        (consumeP_err tokens pos3 .EQUAL "Expected '=' after type"
                          e (by omega) (by omega) hC4)
                    | ok p4 =>
                      obtain ⟨et, pos4⟩ := p4
                      obtain ⟨hpos4, hlt4⟩ := consumeP_ok tokens pos3 .EQUAL
                        "Expected '=' after type" et pos4 hC4
                      try dsimp only
                      cases hP5 : peekP tokens pos4 with
                      | error e =>
                        obtain ⟨he, hlen⟩ := peekP_err tokens pos4 e hP5
                        try dsimp only
                        exact boundedRes_err tokens e
                          (fun i hi => by rw [he] at hi; injection hi with h3; omega)
                      | ok c4 =>
                        try dsimp only
                        cases hE : expressionP f tokens 0 pos4 with
                        | error e =>
                          have hbr := ihE tokens 0 pos4 (by omega)
                          rw [hE] at hbr
                          try dsimp only
                          exact boundedRes_err_cast tokens e hbr
                        | ok p5 =>
                          obtain ⟨vOpt, pos5⟩ := p5
                          have hbr := ihE tokens 0 pos4 (by omega)
                          rw [hE] at hbr
                          have hpos5 := hbr.2 vOpt pos5 rfl
                          try dsimp only
                          cases vOpt with
                          | none =>
                            exact boundedRes_err tokens .missingInitializer
                              (fun i hi => PErr.noConfusion hi)
                          | some v =>
                            exact boundedRes_ok tokens _ pos5 hpos5

/-- In-bounds invariant of the top-level loop of `Parser::parse`. -/
theorem parseTop_bounds : ∀ (fuel : Nat) (tokens : List Token) (pos : Nat)
    (acc : List Ast), pos ≤ tokens.length →
    boundedRes tokens (parseTop fuel tokens pos acc) := by
  intro fuel
  induction fuel with
  | zero =>
    intro tokens pos acc hb
    exact boundedRes_err tokens .fuelOut (fun i hi => PErr.noConfusion hi)
  | succ f ih =>
    intro tokens pos acc hb
    unfold parseTop
    split
    · exact boundedRes_ok tokens acc pos hb
    · cases hE : expressionP f tokens 0 pos with
      | error e =>
        have hbr := (parser_bounds f).1 tokens 0 pos hb
        rw [hE] at hbr
        try dsimp only
        split
        · exact boundedRes_ok tokens acc pos hb
        · exact boundedRes_err_cast tokens e hbr
      | ok p =>
        obtain ⟨aOpt, pos2⟩ := p
        have hbr := (parser_bounds f).1 tokens 0 pos hb
        rw [hE] at hbr
        have hpos2 := hbr.2 aOpt pos2 rfl
        cases aOpt with
        | some a =>
          try dsimp only
          exact ih tokens pos2 (acc ++ [a]) hpos2
        | none =>
          try dsimp only
          exact ih tokens pos2 acc hpos2

/-- C9 amended: every token-vector read the parser performs stays at an
index of at most the sequence length.  A read at index exactly the length
(one past the last token) can occur — the unconditional advance at the
start of `expression` after a trailing infix operator — and it aborts the
run reporting that index, so no read ever goes past length. -/
theorem C9_amended (tokens : List Token) (fuel : Nat) (pos : Nat)
    (acc : List Ast) (hb : pos ≤ tokens.length) :
    (∀ i, parseTop fuel tokens pos acc = .error (.oobRead i) →
      i = (tokens.length : Int)) ∧
    (∀ i, parse tokens = .error (.oobRead i) → i = (tokens.length : Int)) := by
  constructor
  · exact (parseTop_bounds fuel tokens pos acc hb).1
  · intro i h
    unfold parse at h
    cases hT : parseTop (8 * tokens.length + 8) tokens 0 [] with
    | error e =>
      rw [hT] at h
      dsimp only at h
      injection h with h2
      exact (parseTop_bounds _ tokens 0 [] (by omega)).1 i (by rw [hT, h2])
    | ok p =>
      rw [hT] at h
      dsimp only at h
      exact Except.noConfusion h

/-- C9 counterexample: on the two-token sequence for 1 + the parser's
unconditional advance reads index 2, which is the sequence length — not
strictly less than it as the claim requires. -/
theorem C9_counterexample :
    parse [⟨.NUMBER, "1", ⟨1, 0, 1⟩⟩, ⟨.PLUS, "+", ⟨1, 1, 2⟩⟩] =
      .error (.oobRead 2) ∧ ¬((2 : Int) < 2) := ⟨rfl, by decide⟩

/-- C9 witness: the amended claim instantiated on that two-token sequence:
the reported out-of-bounds index equals the sequence length. -/
theorem C9_witness :
    (2 : Int) = (List.length [Token.mk .NUMBER "1" ⟨1, 0, 1⟩,
      Token.mk .PLUS "+" ⟨1, 1, 2⟩] : Int) :=
  (C9_amended [⟨.NUMBER, "1", ⟨1, 0, 1⟩⟩, ⟨.PLUS, "+", ⟨1, 1, 2⟩⟩] 1 0 []
    (by decide)).2 2 rfl

set_option maxRecDepth 10000 in
/-- C4: on the source ab $ the lexer's unknown-character fatal path hands
`errorMessage` the span 3..4 on line 1; the rendered diagnostic contains
the classification label, the file name with line and column, and exactly
`end_column - start_column` caret characters — but NOT the text of the
source line: the body row prints the single character `Contents[line - 1]`
(here the letter a), because `errorMessage` indexes the whole source
string with the line number. -/
theorem C4_eval :
    tokenize "ab $" = .error (.unknownChar ⟨1, 3, 4⟩ "$") ∧
    containsSeq "lexer error: ".data
      (errorMessage "lexer" "Unknown character" ⟨1, 3, 4⟩ "test.fp" "ab $").data
      = true ∧
    containsSeq "test.fp:1:3".data
      (errorMessage "lexer" "Unknown character" ⟨1, 3, 4⟩ "test.fp" "ab $").data
      = true ∧
    containsSeq "ab $".data
      (errorMessage "lexer" "Unknown character" ⟨1, 3, 4⟩ "test.fp" "ab $").data
      = false ∧
    caretRow ⟨1, 3, 4⟩ = colorBold (colorRed "^") ∧
    contentsCharAt "ab $" (1 - 1) = 'a' :=
  ⟨rfl, rfl, rfl, rfl, rfl, rfl⟩

/-- C6: on the well-formed declaration token sequence new x : int = 1 the
parser does not produce a `VarDeclaration`: `expression` has already
consumed the `NEW` driver token when `parse_new_decl` calls
`consume(NEW, ...)` again, so the parse aborts with the fatal message
naming 'new' as expected and the actual lexeme x. -/
theorem C6_eval :
    parse [⟨.NEW, "new", ⟨1, 0, 3⟩⟩, ⟨.IDENTIFIER, "x", ⟨1, 4, 5⟩⟩,
           ⟨.COLON, ":", ⟨1, 5, 6⟩⟩, ⟨.IDENTIFIER, "int", ⟨1, 7, 10⟩⟩,
           ⟨.EQUAL, "=", ⟨1, 11, 12⟩⟩, ⟨.NUMBER, "1", ⟨1, 13, 14⟩⟩] =
      .error (.consumeFail "Expected 'new'" "x") :=
  rfl

end Farpy
